import Mathlib

/-!
Verification development for the CUQIpy covariance parameterization engine
(src/cuqi/distribution/_gaussian.py), the Gaussian density, and the
experimental sampler lifecycle and Linear RTO sampler
(src/cuqi/experimental/mcmc/_sampler.py, src/cuqi/experimental/mcmc/_rto.py).

The numerical code is embedded shallowly over an arbitrary linear ordered
field, with the external numerical library routines (numpy/scipy/cholmod
factorizations, eigendecompositions, pseudo-inverse ranks, logarithms and
square roots) represented by an explicit record of oracle functions
(NumLib).  Theorems constrain the oracles only at the points where the
source code actually calls them, by the contracts the libraries document
(for instance, for numpy cholesky L, the contract is L * L.transpose = A).
-/

set_option maxHeartbeats 1000000

open Matrix

section Engine

variable {n : ℕ} {α : Type} [LinearOrderedField α] [DecidableEq α]

/-- Shape-classified input to the covariance parameterization engine.
The python code dispatches on the runtime shape of the supplied array:
a 1-element array (scalar), a flat length-dim array (vector), or a
2-dimensional dim-by-dim array which is dense or sparse (the diagonal
test is performed inside the engine, after the scalar and vector tests,
mirroring the order of checks in the source). -/
inductive GIn (n : ℕ) (α : Type) where
  | scalar (v : α)
  | vector (v : Fin n → α)
  | full (M : Matrix (Fin n) (Fin n) α) (sparse : Bool)

/-- The matrix a shape-classified input stands for: a scalar is a scalar
multiple of the identity, a vector is a diagonal matrix, a full input is
itself. -/
def GIn.matrixify : GIn n α → Matrix (Fin n) (Fin n) α
  | .scalar v => v • (1 : Matrix (Fin n) (Fin n) α)
  | .vector v => Matrix.diagonal v
  | .full M _ => M

/-- Oracle record for the external numerical library routines used by
src/cuqi/distribution/_gaussian.py.  Each field models one library call:
sqrt and log model numpy elementwise functions; inv models
numpy.linalg.inv and scipy.sparse.linalg.inv; cholesky models
numpy.linalg.cholesky (lower triangular L with L Lᵀ = A); spChol models
cuqi.utilities.sparse_cholesky, which is code of the repository that is
not under src/ and is modelled from the spec: it returns a factor R with
Rᵀ R = A; cholmodL, cholmodInv and cholmodLogdet model the sksparse
cholmod factorization with natural ordering (L lower triangular with
L Lᵀ = A, the inverse of A, and log det A); eigh models
scipy.linalg.eigh returning the eigenvalues s and the eigenvector matrix
u with u diag(s) uᵀ = A; matrixRank and structuralRank model
numpy.linalg.matrix_rank and scipy.sparse.csgraph.structural_rank; cond
models the floating-point tolerance factor of eigvalsh_to_eps. -/
structure NumLib (n : ℕ) (α : Type) where
  sqrt : α → α
  log : α → α
  inv : Matrix (Fin n) (Fin n) α → Matrix (Fin n) (Fin n) α
  cholesky : Matrix (Fin n) (Fin n) α → Matrix (Fin n) (Fin n) α
  spChol : Matrix (Fin n) (Fin n) α → Matrix (Fin n) (Fin n) α
  cholmodL : Matrix (Fin n) (Fin n) α → Matrix (Fin n) (Fin n) α
  cholmodInv : Matrix (Fin n) (Fin n) α → Matrix (Fin n) (Fin n) α
  cholmodLogdet : Matrix (Fin n) (Fin n) α → α
  eigh : Matrix (Fin n) (Fin n) α → (Fin n → α) × Matrix (Fin n) (Fin n) α
  matrixRank : Matrix (Fin n) (Fin n) α → ℕ
  structuralRank : Matrix (Fin n) (Fin n) α → ℕ
  cond : α

/-- Model of numpy.sign on one entry. -/
def npSign (x : α) : α := if 0 < x then 1 else if x < 0 then -1 else 0

/-- Model of numpy.max over the absolute values of a spectrum (all entries
are taken in absolute value, so the extra 0 initial accumulator does not
change the result). -/
def npMaxAbs (s : Fin n → α) : α := (List.ofFn fun i => |s i|).foldr max 0

/-- Model of eigvalsh_to_eps from _gaussian.py: the numerical-rank cutoff
eps = cond * max |eigenvalue|, with the floating-point based factor cond
taken from the oracle record. -/
def eigvalshToEps (cond : α) (s : Fin n → α) : α := cond * npMaxAbs s

/-- Deterministic column sign fix as written (and immediately discarded)
in the source: U @ diag(sign(diag(U))) flips each column whose
diagonal-aligned entry is negative. -/
def signFixCols (U : Matrix (Fin n) (Fin n) α) : Matrix (Fin n) (Fin n) α :=
  U * Matrix.diagonal (fun j => npSign (U j j))

/-- Errors raised by the parameterization engine. -/
inductive EngErr where
  | asymmetric
  | notPSD
  | sparseUnsupported
  deriving DecidableEq

/-- Result record of get_sqrtprec_from_cov and get_sqrtprec_from_sqrtcov:
the python functions return the tuple (prec, sqrtprec, logdet, rank),
where logdet is None on the sparse path without cholmod. -/
structure CovResult (n : ℕ) (α : Type) where
  prec : Matrix (Fin n) (Fin n) α
  sqrtprec : Matrix (Fin n) (Fin n) α
  logdet : Option α
  rank : ℕ
  deriving DecidableEq

/-- Result record of get_sqrtprec_from_prec and get_sqrtprec_from_sqrtprec:
the python functions return the tuple (sqrtprec, logdet, rank). -/
structure PrecResult (n : ℕ) (α : Type) where
  sqrtprec : Matrix (Fin n) (Fin n) α
  logdet : Option α
  rank : ℕ
  deriving DecidableEq

/-- Shared eigendecomposition branch of the dense inputs processed with
sparse_flag, as in the source: compute (s, u) = eigh(M), the cutoff eps,
fail when an eigenvalue is below -eps, build the pseudo-inverse spectrum,
scale the eigenvector columns, compute (and then discard, as the source
does) the sign-fixed factor, and return Uᵀ together with rank and logdet
read off the eigenvalues above eps.  ldsign is +1 for the covariance
entry point and -1 for the precision entry points.  usePinv selects
between scaling by sqrt(s_pinv) (covariance side) and sqrt(s) (precision
side), mirroring the two code blocks. -/
def eighBranch (O : NumLib n α) (M : Matrix (Fin n) (Fin n) α) (usePinv : Bool)
    (ldsign : α) : Except EngErr (Matrix (Fin n) (Fin n) α × Option α × ℕ) :=
  let s := (O.eigh M).1
  let u := (O.eigh M).2
  let eps := eigvalshToEps O.cond s
  if ∀ i, -eps ≤ s i then
    let sPinv : Fin n → α := fun i => if |s i| ≤ eps then 0 else 1 / s i
    let scale : Fin n → α := if usePinv then sPinv else s
    let U := u * Matrix.diagonal (fun j => O.sqrt (scale j))
    let _dead := signFixCols U
    let sqrtprec := Uᵀ
    let dcard := (Finset.univ.filter (fun i => eps < s i)).card
    let ld := ldsign * ∑ i ∈ Finset.univ.filter (fun i => eps < s i), O.log (s i)
    .ok (sqrtprec, some ld, dcard)
  else
    .error .notPSD

/-- Model of get_sqrtprec_from_cov from _gaussian.py.  chols records
whether the cholmod library is importable.  All branch structure (scalar,
vector, diagonal, sparse with and without cholmod, dense eigendecomposition
when sparse_flag is set, dense cholesky otherwise) follows the source.
The distinction between the sparse and dense storage of the closed-form
results (scipy identity/diags versus numpy identity/diag) is collapsed,
since both store the same matrix. -/
def get_sqrtprec_from_cov (O : NumLib n α) (chols : Bool) (cov : GIn n α)
    (sparse_flag : Bool) : Except EngErr (CovResult n α) :=
  match cov with
  | .scalar v =>
      .ok { prec := (1 / v) • (1 : Matrix (Fin n) (Fin n) α),
            sqrtprec := O.sqrt (1 / v) • (1 : Matrix (Fin n) (Fin n) α),
            logdet := some ((n : α) * O.log v), rank := n }
  | .vector v =>
      .ok { prec := Matrix.diagonal (fun i => 1 / v i),
            sqrtprec := Matrix.diagonal (fun i => O.sqrt (1 / v i)),
            logdet := some (∑ i, O.log (v i)), rank := n }
  | .full M sparse =>
      if ∀ i j, i ≠ j → M i j = 0 then
        .ok { prec := Matrix.diagonal (fun i => 1 / M i i),
              sqrtprec := Matrix.diagonal (fun i => O.sqrt (1 / M i i)),
              logdet := some (∑ i, O.log (M i i)), rank := n }
      else if sparse then
        if chols then
          .ok { prec := O.cholmodInv M, sqrtprec := O.spChol (O.cholmodInv M),
                logdet := some (O.cholmodLogdet M), rank := O.structuralRank M }
        else
          .ok { prec := O.inv M, sqrtprec := O.spChol (O.inv M),
                logdet := none, rank := O.structuralRank M }
      else if M = Mᵀ then
        if sparse_flag then
          (eighBranch O M true 1).map fun r =>
            { prec := r.1ᵀ * r.1, sqrtprec := r.1,
              logdet := r.2.1, rank := r.2.2 }
        else
          .ok { prec := O.inv M, sqrtprec := (O.cholesky (O.inv M))ᵀ,
                logdet := some (O.log M.det), rank := O.matrixRank M }
      else .error .asymmetric

/-- Model of get_sqrtprec_from_prec from _gaussian.py.  Note that on the
sparse path with cholmod the source sets sqrtprec to the cholmod factor
L itself (L Lᵀ = prec), without transposition, unlike every other branch
of the file. -/
def get_sqrtprec_from_prec (O : NumLib n α) (chols : Bool) (prec : GIn n α)
    (sparse_flag : Bool) : Except EngErr (PrecResult n α) :=
  match prec with
  | .scalar v =>
      .ok { sqrtprec := O.sqrt v • (1 : Matrix (Fin n) (Fin n) α),
            logdet := some (-((n : α) * O.log v)), rank := n }
  | .vector v =>
      .ok { sqrtprec := Matrix.diagonal (fun i => O.sqrt (v i)),
            logdet := some (∑ i, -O.log (v i)), rank := n }
  | .full M sparse =>
      if ∀ i j, i ≠ j → M i j = 0 then
        .ok { sqrtprec := Matrix.diagonal (fun i => O.sqrt (M i i)),
              logdet := some (∑ i, -O.log (M i i)), rank := n }
      else if sparse then
        if chols then
          .ok { sqrtprec := O.cholmodL M,
                logdet := some (-(O.cholmodLogdet M)), rank := O.structuralRank M }
        else
          .ok { sqrtprec := O.spChol M,
                logdet := none, rank := O.structuralRank M }
      else if M = Mᵀ then
        if sparse_flag then
          (eighBranch O M false (-1)).map fun r =>
            { sqrtprec := r.1, logdet := r.2.1, rank := r.2.2 }
        else
          .ok { sqrtprec := (O.cholesky M)ᵀ,
                logdet := some (-O.log M.det), rank := O.matrixRank M }
      else .error .asymmetric

/-- Model of get_sqrtprec_from_sqrtcov from _gaussian.py. -/
def get_sqrtprec_from_sqrtcov (O : NumLib n α) (chols : Bool) (sqrtcov : GIn n α)
    (sparse_flag : Bool) : Except EngErr (CovResult n α) :=
  match sqrtcov with
  | .scalar v =>
      .ok { prec := (1 / v ^ 2) • (1 : Matrix (Fin n) (Fin n) α),
            sqrtprec := (1 / v) • (1 : Matrix (Fin n) (Fin n) α),
            logdet := some ((n : α) * O.log (v ^ 2)), rank := n }
  | .vector v =>
      .ok { prec := Matrix.diagonal (fun i => 1 / v i ^ 2),
            sqrtprec := Matrix.diagonal (fun i => 1 / v i),
            logdet := some (∑ i, O.log (v i ^ 2)), rank := n }
  | .full M sparse =>
      if ∀ i j, i ≠ j → M i j = 0 then
        .ok { prec := Matrix.diagonal (fun i => 1 / M i i ^ 2),
              sqrtprec := Matrix.diagonal (fun i => 1 / M i i),
              logdet := some (∑ i, O.log (M i i ^ 2)), rank := n }
      else if sparse then
        if chols then
          .ok { prec := O.cholmodInv (M * Mᵀ),
                sqrtprec := O.spChol (O.cholmodInv (M * Mᵀ)),
                logdet := some (O.cholmodLogdet (M * Mᵀ)),
                rank := O.structuralRank (M * Mᵀ) }
        else .error .sparseUnsupported
      else if sparse_flag then
        (eighBranch O (M * Mᵀ) true 1).map fun r =>
          { prec := r.1ᵀ * r.1, sqrtprec := r.1,
            logdet := r.2.1, rank := r.2.2 }
      else
        .ok { prec := O.inv (M * Mᵀ),
              sqrtprec := (O.cholesky (O.inv (M * Mᵀ)))ᵀ,
              logdet := some (O.log (M * Mᵀ).det),
              rank := O.matrixRank (M * Mᵀ) }

/-- Model of get_sqrtprec_from_sqrtprec from _gaussian.py.  The scalar and
vector inputs are materialized into diagonal matrices; diagonal and full
inputs are passed through unchanged, and only logdet and rank are
computed (from sqrtprec @ sqrtprec.T on the full paths, exactly as the
source writes it). -/
def get_sqrtprec_from_sqrtprec (O : NumLib n α) (chols : Bool) (sp : GIn n α)
    (sparse_flag : Bool) : Except EngErr (PrecResult n α) :=
  match sp with
  | .scalar v =>
      .ok { sqrtprec := Matrix.diagonal (fun _ => v),
            logdet := some (-((n : α) * O.log (v ^ 2))), rank := n }
  | .vector v =>
      .ok { sqrtprec := Matrix.diagonal v,
            logdet := some (∑ i, -O.log (v i ^ 2)), rank := n }
  | .full M sparse =>
      if ∀ i j, i ≠ j → M i j = 0 then
        .ok { sqrtprec := M,
              logdet := some (∑ i, -O.log (M i i ^ 2)), rank := n }
      else if sparse then
        if chols then
          .ok { sqrtprec := M,
                logdet := some (-(O.cholmodLogdet (M * Mᵀ))),
                rank := O.structuralRank (M * Mᵀ) }
        else .error .sparseUnsupported
      else if sparse_flag then
        let s := (O.eigh (M * Mᵀ)).1
        let eps := eigvalshToEps O.cond s
        if ∀ i, -eps ≤ s i then
          .ok { sqrtprec := M,
                logdet := some (-∑ i ∈ Finset.univ.filter (fun i => eps < s i),
                  O.log (s i)),
                rank := (Finset.univ.filter (fun i => eps < s i)).card }
        else .error .notPSD
      else
        .ok { sqrtprec := M,
              logdet := some (-O.log (M * Mᵀ).det),
              rank := O.matrixRank (M * Mᵀ) }

end Engine

section GaussianDensity

variable {n : ℕ} {α : Type} [LinearOrderedField α] [DecidableEq α]

/-- Designated mutable covariance-like representation of a Gaussian
(the _mutable_vars mechanism of the source, minus the always-mutable
mean). -/
inductive ParamTag where
  | cov
  | prec
  | sqrtcov
  | sqrtprec
  deriving DecidableEq

/-- Derived fields of a Gaussian, produced by the parameterization
engine when the designated representation is assigned: the stored
precision (None after a sqrtprec assignment, and the raw input after a
prec assignment), the canonical square-root precision factor, the
optional log determinant and the rank. -/
structure GaussFields (n : ℕ) (α : Type) where
  prec : Option (Matrix (Fin n) (Fin n) α)
  sqrtprec : Matrix (Fin n) (Fin n) α
  logdet : Option α
  rank : ℕ
  deriving DecidableEq

/-- State of a Gaussian distribution object: the designated mutable
representation, the mean, and the derived fields (none when the Gaussian
was constructed with no covariance-like argument, in which case nothing
has been factorized yet). -/
structure GaussianModel (n : ℕ) (α : Type) where
  tag : ParamTag
  mean : Fin n → α
  fields : Option (GaussFields n α)
  deriving DecidableEq

/-- Errors raised by the Gaussian constructor and setters: assigning a
representation that is not the designated mutable one, supplying more
than one covariance-like argument at construction, or an engine error
propagated from factorization. -/
inductive GaussErr where
  | invalidParameterization
  | tooManyParams
  | eng (e : EngErr)
  deriving DecidableEq

/-- Model of the cov property setter: refuse unless cov is the designated
mutable variable, then recompute prec, sqrtprec, logdet and rank through
get_sqrtprec_from_cov. -/
def gaussSetCov (O : NumLib n α) (chols : Bool) (sparse_flag : Bool)
    (g : GaussianModel n α) (v : GIn n α) : Except GaussErr (GaussianModel n α) :=
  if g.tag = ParamTag.cov then
    match get_sqrtprec_from_cov O chols v sparse_flag with
    | .error e => .error (.eng e)
    | .ok r => .ok { g with fields := some ⟨some r.prec, r.sqrtprec, r.logdet, r.rank⟩ }
  else .error .invalidParameterization

/-- Model of the prec property setter: refuse unless prec is the
designated mutable variable, then store the assigned precision and
recompute sqrtprec, logdet and rank through get_sqrtprec_from_prec
(the covariance is dropped). -/
def gaussSetPrec (O : NumLib n α) (chols : Bool) (sparse_flag : Bool)
    (g : GaussianModel n α) (v : GIn n α) : Except GaussErr (GaussianModel n α) :=
  if g.tag = ParamTag.prec then
    match get_sqrtprec_from_prec O chols v sparse_flag with
    | .error e => .error (.eng e)
    | .ok r => .ok { g with fields := some ⟨some v.matrixify, r.sqrtprec, r.logdet, r.rank⟩ }
  else .error .invalidParameterization

/-- Model of the sqrtcov property setter: refuse unless sqrtcov is the
designated mutable variable, then recompute through
get_sqrtprec_from_sqrtcov. -/
def gaussSetSqrtcov (O : NumLib n α) (chols : Bool) (sparse_flag : Bool)
    (g : GaussianModel n α) (v : GIn n α) : Except GaussErr (GaussianModel n α) :=
  if g.tag = ParamTag.sqrtcov then
    match get_sqrtprec_from_sqrtcov O chols v sparse_flag with
    | .error e => .error (.eng e)
    | .ok r => .ok { g with fields := some ⟨some r.prec, r.sqrtprec, r.logdet, r.rank⟩ }
  else .error .invalidParameterization

/-- Model of the sqrtprec property setter: refuse unless sqrtprec is the
designated mutable variable, then recompute through
get_sqrtprec_from_sqrtprec (precision and covariance are dropped). -/
def gaussSetSqrtprec (O : NumLib n α) (chols : Bool) (sparse_flag : Bool)
    (g : GaussianModel n α) (v : GIn n α) : Except GaussErr (GaussianModel n α) :=
  if g.tag = ParamTag.sqrtprec then
    match get_sqrtprec_from_sqrtprec O chols v sparse_flag with
    | .error e => .error (.eng e)
    | .ok r => .ok { g with fields := some ⟨none, r.sqrtprec, r.logdet, r.rank⟩ }
  else .error .invalidParameterization

/-- Model of the Gaussian initializer: count the covariance-like
arguments; with none of them the mutable variable defaults to cov and no
factorization happens; with more than one the constructor fails; with
exactly one the corresponding representation becomes the designated
mutable variable and its setter runs (in the dispatch order cov, prec,
sqrtcov, sqrtprec of the source). -/
def gaussInit (O : NumLib n α) (chols : Bool) (sparse_flag : Bool)
    (mean : Fin n → α) (cov prec sqrtcov sqrtprec : Option (GIn n α)) :
    Except GaussErr (GaussianModel n α) :=
  let cnt := (if cov.isSome then 1 else 0) + (if prec.isSome then 1 else 0) +
    (if sqrtprec.isSome then 1 else 0) + (if sqrtcov.isSome then 1 else 0)
  if cnt = 0 then .ok { tag := .cov, mean := mean, fields := none }
  else if cnt ≠ 1 then .error .tooManyParams
  else
    match cov, prec, sqrtcov, sqrtprec with
    | some v, _, _, _ => gaussSetCov O chols sparse_flag ⟨.cov, mean, none⟩ v
    | none, some v, _, _ => gaussSetPrec O chols sparse_flag ⟨.prec, mean, none⟩ v
    | none, none, some v, _ => gaussSetSqrtcov O chols sparse_flag ⟨.sqrtcov, mean, none⟩ v
    | none, none, none, some v => gaussSetSqrtprec O chols sparse_flag ⟨.sqrtprec, mean, none⟩ v
    | none, none, none, none => .error .tooManyParams

/-- Model of the un-normalized log density _logupdf: minus one half of
the squared norm of sqrtprec applied to the deviation from the mean. -/
def gaussLogupdf (mean : Fin n → α) (f : GaussFields n α) (x : Fin n → α) : α :=
  -(1 / 2) * ∑ i, (f.sqrtprec.mulVec (x - mean) i) ^ 2

/-- Model of Gaussian.logpdf: fail (None) when logdet is undefined,
otherwise the normalizing constant -1/2 (rank log(2 pi) + logdet) plus
the un-normalized log density.  log2pi is the model of the library value
np.log(2 np.pi). -/
def gaussLogpdf (mean : Fin n → α) (f : GaussFields n α) (log2pi : α)
    (x : Fin n → α) : Option α :=
  match f.logdet with
  | none => none
  | some ld =>
      some (-(1 / 2) * ((f.rank : α) * log2pi + ld) + gaussLogupdf mean f x)

end GaussianDensity

section SamplerModel

variable {α : Type} [LinearOrderedField α] [DecidableEq α] {P S V : Type}

/-- Dot product of two vectors represented as lists (truncating to the
shorter, as numpy would reject mismatched shapes that never occur on the
well-formed inputs we consider). -/
def dotL (u v : List α) : α := (List.zipWith (fun a b => a * b) u v).sum

/-- Elementwise sum of two list vectors. -/
def vAddL (u v : List α) : List α := List.zipWith (fun a b => a + b) u v

/-- Elementwise difference of two list vectors. -/
def vSubL (u v : List α) : List α := List.zipWith (fun a b => a - b) u v

/-- Scalar multiple of a list vector. -/
def sMulL (c : α) (v : List α) : List α := v.map (fun a => c * a)

/-- Matrix-vector product, the matrix given as its list of rows. -/
def matVecL (M : List (List α)) (v : List α) : List α := M.map (fun r => dotL r v)

/-- Column j of a list-of-rows matrix (missing entries read as 0). -/
def colL (M : List (List α)) (j : ℕ) : List α := M.map (fun r => r.getD j 0)

/-- Transpose of a list-of-rows matrix with q columns. -/
def transposeLc (q : ℕ) (M : List (List α)) : List (List α) :=
  (List.range q).map (fun j => colL M j)

/-- Product of two list-of-rows matrices, the right factor having q
columns. -/
def matMulL (q : ℕ) (A B : List (List α)) : List (List α) :=
  A.map (fun r => (List.range q).map (fun j => dotL r (colL B j)))

/-- Vector of ones (numpy.ones), the default initial point of the
sampler base class. -/
def onesL (m : ℕ) : List α := List.replicate m 1

/-- Vector of zeros (numpy.zeros). -/
def zerosL (m : ℕ) : List α := List.replicate m 0

/-- Model of the forward model attached to a likelihood: a plain matrix
(not callable, hence taking the explicit stacked-matrix branch of
_precompute), a cuqi LinearModel exposing forward and adjoint closures
(callable), or a general non-linear model (callable, but rejected by
validate_target). -/
inductive LModel (α : Type) where
  | mat (rows : List (List α))
  | oper (fwd : List α → List α) (adj : List α → List α)
  | nonlin (fwd : List α → List α)

/-- Whether python callable() is true of the model. -/
def LModel.isCallable : LModel α → Bool
  | .mat _ => false
  | .oper _ _ => true
  | .nonlin _ => true

/-- Whether the model is a cuqi LinearModel (the isinstance check of
validate_target). -/
def LModel.isLinear : LModel α → Bool
  | .mat _ => true
  | .oper _ _ => true
  | .nonlin _ => false

/-- Forward application of the model. -/
def LModel.fwd : LModel α → List α → List α
  | .mat rows, x => matVecL rows x
  | .oper f _, x => f x
  | .nonlin f, x => f x

/-- Adjoint application of the model (a non-linear model has none; the
code would fail there, which validation prevents). -/
def LModel.adj : LModel α → List α → List α
  | .mat rows, y => matVecL (transposeLc rows.length rows) y
  | .oper _ a, y => a y
  | .nonlin _, _ => []

/-- Rows of a matrix-backed model. -/
def LModel.rowsD : LModel α → List (List α)
  | .mat rows => rows
  | .oper _ _ => []
  | .nonlin _ => []

/-- One Gaussian likelihood of the RTO target: its forward model, the
square-root precision of its noise distribution (an m-by-m matrix for m
data points), and its observed data. -/
structure LikRec (α : Type) where
  model : LModel α
  sqrtprec : List (List α)
  data : List α

/-- The Gaussian prior of the RTO target: its mean and its square-root
precision, an n-by-n matrix for the prior dimension n. -/
structure PriorRec (α : Type) where
  mean : List α
  sqrtprecRows : List (List α)

/-- An RTO target (posterior): one or more likelihoods and a prior. -/
structure TargetRec (α : Type) where
  likelihoods : List (LikRec α)
  prior : PriorRec α

/-- Dimension of the target, which is the prior dimension. -/
def TargetRec.dim (t : TargetRec α) : ℕ := t.prior.mean.length

/-- Errors of the sampler lifecycle model.  attributeMissing models a
python AttributeError on an attribute that has not been assigned yet;
noneTargetPrecompute models the TypeError of running _precompute with no
target. -/
inductive PyErr where
  | noTarget
  | alreadyInitialized
  | attributeMissing
  | incompleteInit
  | invalidTargetType
  | modelNotLinear
  | mixedOperatorTypes
  | checkpointTypeMismatch
  | unknownStateKey
  | noneTargetPrecompute
  deriving DecidableEq

/-- The stacked right-hand side b_tild of LinearRTONew._precompute:
the concatenation of each likelihood square-root precision applied to its
data, followed by the prior square-root precision applied to the prior
mean. -/
def rtoBtild (t : TargetRec α) : List α :=
  (t.likelihoods.map (fun l => matVecL l.sqrtprec l.data)).flatten ++
    matVecL t.prior.sqrtprecRows t.prior.mean

/-- Forward mode (flag == 1) of the virtual stacked operator built by
_precompute when every model is callable. -/
def rtoVirtFwd (t : TargetRec α) (x : List α) : List α :=
  (t.likelihoods.map (fun l => matVecL l.sqrtprec (l.model.fwd x))).flatten ++
    matVecL t.prior.sqrtprecRows x

/-- Adjoint-mode accumulation loop of the virtual stacked operator
(flag == 2): walk the likelihoods, peel off each data-length segment of
the input, and add the model adjoint of sqrtprecᵀ applied to the segment
into the accumulator started at zeros(n). -/
def rtoAdjLoop (y : List α) : List (LikRec α) → ℕ → List α → List α × ℕ
  | [], idxStart, acc => (acc, idxStart)
  | l :: rest, idxStart, acc =>
      let m := l.data.length
      let seg := (y.drop idxStart).take m
      let contrib := l.model.adj (matVecL (transposeLc l.sqrtprec.length l.sqrtprec) seg)
      rtoAdjLoop y rest (idxStart + m) (vAddL acc contrib)

/-- Adjoint mode (flag == 2) of the virtual stacked operator: the
likelihood contributions plus the prior square-root precision transpose
applied to the remaining segment. -/
def rtoVirtAdj (t : TargetRec α) (y : List α) : List α :=
  let n := t.prior.mean.length
  let r := rtoAdjLoop y t.likelihoods 0 (zerosL n)
  vAddL r.1 (matVecL (transposeLc n t.prior.sqrtprecRows) (y.drop r.2))

/-- The stacked operator of _precompute: one explicit vertically stacked
matrix when no model is callable, a virtual forward/adjoint pair when all
are. -/
inductive StackOp (α : Type) where
  | explicitM (rows : List (List α))
  | virtualOp (fwd : List α → List α) (adj : List α → List α)

/-- Model of the operator-stacking part of LinearRTONew._precompute:
dispatch on the callability of the likelihood models, building either the
explicit vstack of the weighted model matrices and the prior factor, or
the virtual operator; a mixture of callable and non-callable models is an
error. -/
def rtoPrecomputeM (t : TargetRec α) : Except PyErr (StackOp α) :=
  let n := t.prior.mean.length
  if t.likelihoods.all (fun l => !l.model.isCallable) then
    .ok (.explicitM
      ((t.likelihoods.map (fun l => matMulL n l.sqrtprec l.model.rowsD)).flatten ++
        t.prior.sqrtprecRows))
  else if t.likelihoods.all (fun l => l.model.isCallable) then
    .ok (.virtualOp (rtoVirtFwd t) (rtoVirtAdj t))
  else .error .mixedOperatorTypes

/-- An abstract linear operator for the CGLS solver, giving forward and
adjoint application. -/
structure CglsOp (α : Type) where
  apply : List α → List α
  applyT : List α → List α

/-- View a stacked operator as a CGLS operator; n is the domain
dimension (the prior dimension), fixing the column count of the explicit
matrix. -/
def StackOp.toOp (n : ℕ) : StackOp α → CglsOp α
  | .explicitM rows => ⟨fun x => matVecL rows x, fun y => matVecL (transposeLc n rows) y⟩
  | .virtualOp f a => ⟨f, a⟩

/-- Modelled from the spec: cuqi.solver.CGLS is code of this repository
that is not under src/ (only its caller LinearRTONew.step is).  Per the
spec it is a bounded-iteration conjugate-gradient least-squares solver
for min norm(M x - y)^2 with a fixed iteration cap and residual
tolerance, started from the current point, returning the best iterate
when the cap is exceeded.  This is the standard (shifted) CGLS
recurrence; the tolerance test compares squared residual norms.  The
recursion is on the remaining iteration budget. -/
def cglsLoop (A : CglsOp α) (shift tolsq norms0sq : α) :
    ℕ → List α → List α → List α → α → List α
  | 0, x, _, _, _ => x
  | fuel + 1, x, r, p, gamma =>
      let q := A.apply p
      let delta := dotL q q + shift * dotL p p
      if delta = 0 then x
      else
        let alpha := gamma / delta
        let x1 := vAddL x (sMulL alpha p)
        let r1 := vSubL r (sMulL alpha q)
        let s1 := vSubL (A.applyT r1) (sMulL shift x1)
        let gamma1 := dotL s1 s1
        if gamma1 ≤ tolsq * norms0sq then x1
        else cglsLoop A shift tolsq norms0sq fuel x1 r1
          (vAddL s1 (sMulL (gamma1 / gamma) p)) gamma1

/-- Modelled from the spec: entry point of the CGLS solver (see
cglsLoop).  Initializes the residual, the normal-equations residual and
the first search direction from the starting point. -/
def cgls (A : CglsOp α) (b x0 : List α) (maxit : ℕ) (tol shift : α) : List α :=
  let r0 := vSubL b (A.apply x0)
  let s0 := vSubL (A.applyT r0) (sMulL shift x0)
  cglsLoop A shift (tol * tol) (dotL s0 s0) maxit x0 r0 s0 (dotL s0 s0)

/-- Model of LinearRTONew.step: perturb the stacked right-hand side with
the supplied standard-normal draw, re-solve the least-squares system by
CGLS from the current point, and return the new point together with the
constant acceptance indicator 1. -/
def rtoStep (op : CglsOp α) (btild current noise : List α) (maxit : ℕ)
    (tol shift : α) : List α × ℕ :=
  (cgls op (vAddL btild noise) current maxit tol shift, 1)

end SamplerModel

section Lifecycle

variable {α : Type} [LinearOrderedField α] [DecidableEq α] {P S V : Type}

/-- Attribute state of a LinearRTONew sampler object.  Fields whose
python counterparts may not have been assigned yet are Options, with
none meaning the attribute does not exist (reading it raises
AttributeError) or holds None; isInit models _is_initialized, which is
only assigned near the end of SamplerNew.__init__. -/
structure PySamplerSt (α : Type) where
  target : Option (TargetRec α)
  initialPoint : Option (List α)
  currentPoint : Option (List α)
  samplesH : Option (List (List α))
  accH : Option (List ℕ)
  isInit : Option Bool
  btild : Option (List α)
  stackM : Option (StackOp α)

/-- Model of LinearRTONew.validate_target on a posterior target: every
likelihood model must be a cuqi LinearModel (the sqrtprec and
sqrtprecTimesMean attribute checks are structurally satisfied by the
TargetRec representation). -/
def rtoValidateTarget (t : TargetRec α) : Except PyErr Unit :=
  if t.likelihoods.all (fun l => l.model.isLinear) then .ok () else .error .modelNotLinear

/-- Model of SamplerNew.initialize as run for a LinearRTONew sampler:
raise when _is_initialized does not exist yet (the AttributeError of
reading it during __init__) or is already True; otherwise require a
target, set the default initial point (ones of the target dimension) as
the current point, reset the samples history to empty, and check that
every state and history key is set (the _acc history key is left
untouched by the base _initialize_history, so it must already exist). -/
def samplerInitRTO (s : PySamplerSt α) : Except PyErr (PySamplerSt α) :=
  match s.isInit with
  | none => .error .attributeMissing
  | some true => .error .alreadyInitialized
  | some false =>
      match s.target with
      | none => .error .noTarget
      | some t =>
          let d := t.dim
          let s1 := { s with initialPoint := some (onesL d),
                             currentPoint := some ((onesL d : List α)),
                             samplesH := some ([] : List (List α)) }
          if s1.accH.isSome then .ok { s1 with isInit := some true }
          else .error .incompleteInit

/-- Model of assigning the target property of a LinearRTONew sampler to a
(non-None) posterior: store the target, validate it, run initialize, and
then run _precompute, storing the stacked right-hand side and operator. -/
def rtoSetTarget (s : PySamplerSt α) (v : TargetRec α) :
    Except PyErr (PySamplerSt α) :=
  let s1 := { s with target := some v }
  match rtoValidateTarget v with
  | .error e => .error e
  | .ok _ =>
      match samplerInitRTO s1 with
      | .error e => .error e
      | .ok s2 =>
          match rtoPrecomputeM v with
          | .error e => .error e
          | .ok M => .ok { s2 with btild := some (rtoBtild v), stackM := some M }

/-- Model of constructing a LinearRTONew sampler: SamplerNew.__init__
assigns the target property first, while _is_initialized does not exist
yet, so a non-None target reaches initialize and fails with the
AttributeError; a None target skips validation and initialization but
LinearRTONew's setter still runs _precompute, which fails on the missing
target.  The unreachable success continuation performs the remaining
assignments of the two initializers (zeros initial point, _acc = [1],
_is_initialized = False). -/
def mkLinearRTO (target : Option (TargetRec α)) : Except PyErr (PySamplerSt α) :=
  let s0 : PySamplerSt α := ⟨none, none, none, none, none, none, none, none⟩
  match target with
  | none => .error .noneTargetPrecompute
  | some t =>
      let s1 := { s0 with target := some t }
      match rtoValidateTarget t with
      | .error e => .error e
      | .ok _ =>
          match samplerInitRTO s1 with
          | .error e => .error e
          | .ok s2 =>
              match rtoPrecomputeM t with
              | .error e => .error e
              | .ok M =>
                  let d := t.dim
                  .ok { s2 with btild := some (rtoBtild t), stackM := some M,
                                initialPoint := some (zerosL d),
                                currentPoint := some ((zerosL d : List α)),
                                accH := some [1], isInit := some false }

end Lifecycle

section Loops

variable {α : Type} [LinearOrderedField α] [DecidableEq α] {P S V : Type} [DecidableEq V]

/-- The in-memory batch handler of _BatchHandler: the configured batch
size, the current in-memory batch, and the batches already dumped to
disk, in dump order (files.length is num_batches_dumped). -/
structure BatchH (P : Type) where
  batchSize : ℕ
  currentBatch : List P
  files : List (List P)

/-- Model of _BatchHandler.flush: a non-empty current batch is appended
to the dumped files and cleared; an empty one is left alone. -/
def bhFlush (h : BatchH P) : BatchH P :=
  if h.currentBatch.isEmpty then h
  else { h with files := h.files ++ [h.currentBatch], currentBatch := [] }

/-- Model of _BatchHandler.add_sample: with batching disabled do nothing,
otherwise append the sample and flush once the batch is full. -/
def bhAdd (h : BatchH P) (p : P) : BatchH P :=
  if h.batchSize = 0 then h
  else
    let h1 := { h with currentBatch := h.currentBatch ++ [p] }
    if h1.batchSize ≤ h1.currentBatch.length then bhFlush h1 else h1

/-- Model of _BatchHandler.finalize: flush whatever remains.  The method
exists in the source but is never invoked by SamplerNew.sample. -/
def bhFinalize (h : BatchH P) : BatchH P := bhFlush h

/-- An abstract sampler for the generic sampling and warmup loops: a
step transition returning the acceptance indicator, the current point
read-out, and the tune hook taking the tuning interval and the tuning
round. -/
structure LoopSampler (S P : Type) where
  step : S → S × ℕ
  point : S → P
  tune : ℕ → ℕ → S → S

/-- Model of the loop body of SamplerNew.sample over the listed loop
indices: each iteration steps, records the acceptance indicator and the
current point into the history, and adds the point to the batch handler
when batching is on.  The last component records the tune invocations
made by the loop, of which there are none in sample. -/
def sampleGo (a : LoopSampler S P) (k : ℕ) :
    List ℕ → S → BatchH P → S × List ℕ × List P × BatchH P × List (ℕ × ℕ)
  | [], s, bh => (s, [], [], bh, [])
  | _ :: rest, s, bh =>
      let s1 := (a.step s).1
      let acc := (a.step s).2
      let bh1 := if 0 < k then bhAdd bh (a.point s1) else bh
      let r := sampleGo a k rest s1 bh1
      (r.1, acc :: r.2.1, a.point s1 :: r.2.2.1, r.2.2.2.1, r.2.2.2.2)

/-- Model of SamplerNew.sample (Ns, batch_size): run the loop over
range(Ns) with a fresh batch handler; no finalize call follows the
loop. -/
def samplerSample (a : LoopSampler S P) (ns k : ℕ) (s0 : S) :
    S × List ℕ × List P × BatchH P × List (ℕ × ℕ) :=
  sampleGo a k (List.range ns) s0 ⟨k, [], []⟩

/-- Model of the tuning interval of SamplerNew.warmup: python
int(tune_freq * Nb) truncates toward zero and is clamped below by 1. -/
def tuneInterval (tuneFreq : ℚ) (nb : ℕ) : ℕ :=
  max (Int.toNat ⌊tuneFreq * (nb : ℚ)⌋) 1

/-- The tuning interval the specification claims: the ceiling of
tune_freq * N. -/
def claimedTuneInterval (tuneFreq : ℚ) (nb : ℕ) : ℕ :=
  Int.toNat ⌈tuneFreq * (nb : ℚ)⌉

/-- Model of the loop body of SamplerNew.warmup over the listed loop
indices: each iteration steps, tunes with arguments (tune_interval,
idx // tune_interval) when idx + 1 is a multiple of the interval, then
records the acceptance indicator and current point.  The last component
is the list of tune invocations with their arguments. -/
def warmupGo (a : LoopSampler S P) (tuneInt : ℕ) :
    List ℕ → S → S × List ℕ × List P × List (ℕ × ℕ)
  | [], s => (s, [], [], [])
  | idx :: rest, s =>
      let s1 := (a.step s).1
      let acc := (a.step s).2
      let doTune := (idx + 1) % tuneInt = 0
      let s2 := if doTune then a.tune tuneInt (idx / tuneInt) s1 else s1
      let r := warmupGo a tuneInt rest s2
      (r.1, acc :: r.2.1, a.point s2 :: r.2.2.1,
        (if doTune then [(tuneInt, idx / tuneInt)] else []) ++ r.2.2.2)

/-- Model of SamplerNew.warmup (Nb, tune_freq): run the warmup loop over
range(Nb) with the computed tuning interval. -/
def samplerWarmup (a : LoopSampler S P) (tuneFreq : ℚ) (nb : ℕ) (s0 : S) :
    S × List ℕ × List P × List (ℕ × ℕ) :=
  warmupGo a (tuneInterval tuneFreq nb) (List.range nb) s0

end Loops

section Checkpoints

variable {V : Type} [DecidableEq V]

/-- A saved checkpoint record: the sampler type name from the metadata
and the state field dictionary. -/
structure Checkpoint (V : Type) where
  samplerType : String
  stateItems : List (String × V)

/-- Update an attribute dictionary at one key (python setattr). -/
def updateAssoc (cur : List (String × V)) (k : String) (v : V) :
    List (String × V) :=
  if cur.any (fun kv => kv.1 = k) then
    cur.map (fun kv => if kv.1 = k then (k, v) else kv)
  else cur ++ [(k, v)]

/-- Attribute-assignment loop of SamplerNew.set_state: walk the saved
state items, setting each recognized key and failing on any key outside
_STATE_KEYS. -/
def setAttrs (stateKeys : List String) (cur : List (String × V)) :
    List (String × V) → Except PyErr (List (String × V))
  | [] => .ok cur
  | (k, v) :: rest =>
      if stateKeys.contains k then setAttrs stateKeys (updateAssoc cur k v) rest
      else .error .unknownStateKey

/-- Model of SamplerNew.set_state: fail when the checkpoint's sampler
type tag differs from the live sampler's class name, otherwise restore
exactly the recognized state keys. -/
def baseSetState (clsName : String) (stateKeys : List String)
    (cur : List (String × V)) (ck : Checkpoint V) :
    Except PyErr (List (String × V)) :=
  if ck.samplerType = clsName then setAttrs stateKeys cur ck.stateItems
  else .error .checkpointTypeMismatch

/-- Model of SamplerNew.get_state: record the class name and the values
of the state keys. -/
def baseGetState (clsName : String) (stateKeys : List String)
    (read : String → V) : Checkpoint V :=
  ⟨clsName, stateKeys.map (fun k => (k, read k))⟩

/-- The state keys of the sampler base class. -/
def baseStateKeys : List String := ["current_point"]

/-- Model of LinearRTONew.set_state, which overrides the base method
with a bare pass: no tag check, no restoration. -/
def rtoSetState (cur : List (String × V)) (_ck : Checkpoint V) :
    Except PyErr (List (String × V)) := .ok cur

end Checkpoints

section ConcreteData

/-- Extract the sqrtprec factor of a covariance-entry-point result
(zero matrix on error). -/
def covSqrtprecOf {n : ℕ} {α : Type} [LinearOrderedField α] [DecidableEq α]
    (e : Except EngErr (CovResult n α)) : Matrix (Fin n) (Fin n) α :=
  match e with
  | .ok r => r.sqrtprec
  | .error _ => 0

/-- Extract the sqrtprec factor of a precision-entry-point result
(zero matrix on error). -/
def precSqrtprecOf {n : ℕ} {α : Type} [LinearOrderedField α] [DecidableEq α]
    (e : Except EngErr (PrecResult n α)) : Matrix (Fin n) (Fin n) α :=
  match e with
  | .ok r => r.sqrtprec
  | .error _ => 0

/-- Whether a covariance-entry-point call succeeded. -/
def isOkCov {n : ℕ} {α : Type} [LinearOrderedField α] [DecidableEq α]
    (e : Except EngErr (CovResult n α)) : Bool :=
  match e with
  | .ok _ => true
  | .error _ => false

/-- Whether a precision-entry-point call succeeded. -/
def isOkPrec {n : ℕ} {α : Type} [LinearOrderedField α] [DecidableEq α]
    (e : Except EngErr (PrecResult n α)) : Bool :=
  match e with
  | .ok _ => true
  | .error _ => false

/-- A concrete rational square root function agreeing with the real
square root on the arguments the concrete evaluations below feed it. -/
def qSqrt : ℚ → ℚ :=
  fun x => if x = 1 then 1 else if x = 1 / 4 then 1 / 2 else if x = 4 then 2 else 0

/-- A concrete rational oracle record for dimension 2.  The logarithm is
modelled by the constant zero function, which satisfies the
multiplicativity contract log(a b) = log a + log b. -/
def QOBase : NumLib 2 ℚ where
  sqrt := qSqrt
  log := fun _ => 0
  inv := fun _ => 1
  cholesky := fun _ => 1
  spChol := fun _ => 1
  cholmodL := fun _ => 1
  cholmodInv := fun _ => 1
  cholmodLogdet := fun _ => 0
  eigh := fun _ => (fun _ => 1, 1)
  matrixRank := fun _ => 2
  structuralRank := fun _ => 2
  cond := 1 / 1000000

/-- The lower triangular cholmod factor of the C1 failing input. -/
def qLow : Matrix (Fin 2) (Fin 2) ℚ := Matrix.of ![![1, 0], ![1, 1]]

/-- The C1 failing input: a non-diagonal symmetric positive definite
precision matrix qLow * qLowᵀ, supplied as a sparse matrix. -/
def qPrecIn : Matrix (Fin 2) (Fin 2) ℚ := Matrix.of ![![1, 1], ![1, 2]]

/-- Oracle whose cholmod factorization returns qLow (the correct cholmod
factor of qPrecIn). -/
def QOC1 : NumLib 2 ℚ := { QOBase with cholmodL := fun _ => qLow }

/-- Eigenvalues of the C4 input matrix. -/
def eigS : Fin 2 → ℚ := ![1, 4]

/-- A rational orthogonal eigenvector matrix. -/
def eigU1 : Matrix (Fin 2) (Fin 2) ℚ := Matrix.of ![![3 / 5, -4 / 5], ![4 / 5, 3 / 5]]

/-- The same eigenvector matrix with the second column negated: an
equally valid eigendecomposition of the same input. -/
def eigU2 : Matrix (Fin 2) (Fin 2) ℚ := Matrix.of ![![3 / 5, 4 / 5], ![4 / 5, -3 / 5]]

/-- The C4 input: the dense symmetric non-diagonal matrix
eigU1 diag(eigS) eigU1ᵀ. -/
def covC4 : Matrix (Fin 2) (Fin 2) ℚ :=
  Matrix.of ![![73 / 25, -36 / 25], ![-36 / 25, 52 / 25]]

/-- Oracle whose eigendecomposition returns (eigS, eigU1). -/
def QOE1 : NumLib 2 ℚ := { QOBase with eigh := fun _ => (eigS, eigU1) }

/-- Oracle whose eigendecomposition returns (eigS, eigU2). -/
def QOE2 : NumLib 2 ℚ := { QOBase with eigh := fun _ => (eigS, eigU2) }

/-- A rotation by a quarter turn: an orthogonal matrix, hence a valid
square-root precision factor of the identity covariance. -/
def qRot : Matrix (Fin 2) (Fin 2) ℚ := Matrix.of ![![0, -1], ![1, 0]]

/-- Well-formedness of an RTO target: each likelihood square-root
precision is square of the data size (it is the factor of the noise
covariance on data space), and the prior factor is square of the prior
dimension. -/
def TargetWF {α : Type} [LinearOrderedField α] [DecidableEq α] (t : TargetRec α) : Prop :=
  (∀ l ∈ t.likelihoods, l.sqrtprec.length = l.data.length) ∧
    t.prior.sqrtprecRows.length = t.prior.mean.length

/-- Contract of the external forward models: the adjoint of a callable
model returns a vector of the target (prior) dimension. -/
def AdjLenContract {α : Type} [LinearOrderedField α] [DecidableEq α] (t : TargetRec α) : Prop :=
  ∀ l ∈ t.likelihoods, l.model.isCallable = true → ∀ z, (l.model.adj z).length = t.dim

/-- A tiny valid RTO target over ℚ: one likelihood whose linear model is
the identity closure with a constant-zero adjoint of the right length,
and a one-dimensional prior. -/
def tinyTarget : TargetRec ℚ where
  likelihoods := [⟨.oper (fun x => x) (fun _ => [0]), [[1]], [1]⟩]
  prior := ⟨[0], [[1]]⟩

/-- A sampler state as it would be just before its first target
assignment: the initialized flag exists and is False, and the _acc
history attribute exists. -/
def freshRTO : PySamplerSt ℚ :=
  ⟨none, none, none, none, some [1], some false, none, none⟩

/-- A sampler state whose initialization already completed. -/
def initializedRTO : PySamplerSt ℚ :=
  ⟨some tinyTarget, some [0], some [0], some [], some [1], some true, none, none⟩

/-- A trivial instrumentation sampler for the loop models: the state is
a counter, each step increments it and accepts, the point read-out is
the counter, and tune does nothing. -/
def countSampler : LoopSampler ℕ ℕ where
  step := fun s => (s + 1, 1)
  point := fun s => s
  tune := fun _ _ s => s

/-- The derived fields produced by the engine for the 2-dimensional
identity covariance under the rational oracle. -/
def stdFields : GaussFields 2 ℚ :=
  ⟨some (Matrix.diagonal fun i => 1 / (1 : Matrix (Fin 2) (Fin 2) ℚ) i i),
   Matrix.diagonal (fun i => QOBase.sqrt (1 / (1 : Matrix (Fin 2) (Fin 2) ℚ) i i)),
   some (∑ i, QOBase.log ((1 : Matrix (Fin 2) (Fin 2) ℚ) i i)), 2⟩

/-- The standard 2-dimensional Gaussian as constructed from the identity
covariance. -/
def stdGauss2 : GaussianModel 2 ℚ := ⟨.cov, fun _ => 0, some stdFields⟩

/-- The inverse of qPrecIn, used as the precision-side input of the
round-trip consistency witness. -/
def qInvP : Matrix (Fin 2) (Fin 2) ℚ := Matrix.of ![![2, -1], ![-1, 1]]

/-- A rational square root of qInvP on the precision side:
qR2ᵀ qR2 = qInvP. -/
def qR2 : Matrix (Fin 2) (Fin 2) ℚ := Matrix.of ![![1, -1], ![1, 0]]

/-- A rational factor with cholP cholPᵀ = qInvP, modelling the cholesky
output at qInvP. -/
def cholP : Matrix (Fin 2) (Fin 2) ℚ := Matrix.of ![![1, 1], ![0, -1]]

/-- Oracle for the round-trip witness: inversion returns qInvP and the
cholesky factorization returns cholP (their contracts are only consulted
at the matrices the computation feeds them). -/
def QC2 : NumLib 2 ℚ := { QOBase with inv := fun _ => qInvP, cholesky := fun _ => cholP }

end ConcreteData

section Theorems

/-- Helper: the tune-invocation list of the warmup loop has one entry per
loop index idx with (idx + 1) divisible by the tuning interval. -/
theorem warmupGo_tuneCalls_length {S P : Type} (a : LoopSampler S P) (tuneInt : ℕ) :
    ∀ (l : List ℕ) (s : S),
      (warmupGo a tuneInt l s).2.2.2.length =
        l.countP (fun idx => decide ((idx + 1) % tuneInt = 0)) := by
  intro l
  induction l with
  | nil => intro s; simp [warmupGo]
  | cons idx rest ih =>
      intro s
      by_cases h : (idx + 1) % tuneInt = 0 <;>
        simp [warmupGo, h, ih, List.countP_cons, Nat.add_comm]

/-- Helper: among 1, ..., nb there are exactly nb / d multiples of d. -/
theorem range_succ_mod_count (d : ℕ) :
    ∀ nb : ℕ, (List.range nb).countP (fun idx => decide ((idx + 1) % d = 0)) = nb / d := by
  intro nb
  induction nb with
  | zero => simp
  | succ m ih =>
      rw [List.range_succ, List.countP_append, ih, Nat.succ_div]
      by_cases h : (m + 1) % d = 0
      · have hd : d ∣ m + 1 := Nat.dvd_iff_mod_eq_zero.mpr h
        simp [h, hd]
      · have hd : ¬ d ∣ m + 1 := fun hdvd => h (Nat.dvd_iff_mod_eq_zero.mp hdvd)
        simp [h, hd]

/-- Helper: the sample loop makes no tune invocations. -/
theorem sampleGo_tuneCalls {S P : Type} (a : LoopSampler S P) (k : ℕ) :
    ∀ (l : List ℕ) (s : S) (bh : BatchH P), (sampleGo a k l s bh).2.2.2.2 = [] := by
  intro l
  induction l with
  | nil => intro s bh; rfl
  | cons i rest ih => intro s bh; simp [sampleGo, ih]

/-- C8 (amended): the tuning interval is max(floor(tune_freq * N), 1), not
the ceiling; warmup invokes tune exactly floor(N / interval) times, and the
sample loop never invokes tune. -/
theorem C8_warmup_tuning_schedule :
    (∀ (S P : Type) (a : LoopSampler S P) (tf : ℚ) (nb : ℕ) (s0 : S),
      (samplerWarmup a tf nb s0).2.2.2.length = nb / tuneInterval tf nb)
  ∧ (∀ (S P : Type) (a : LoopSampler S P) (ns k : ℕ) (s0 : S),
      (samplerSample a ns k s0).2.2.2.2 = []) := by
  constructor
  · intro S P a tf nb s0
    rw [samplerWarmup, warmupGo_tuneCalls_length, range_succ_mod_count]
  · intro S P a ns k s0
    rw [samplerSample, sampleGo_tuneCalls]

/-- C8 (counterexample): for 25 warmup steps at tune frequency 1/10 the
code tunes every max(int(2.5), 1) = 2 steps, 12 times in total, while the
claimed interval ceil(2.5) = 3 would give floor(25 / 3) = 8 tunings. -/
theorem C8_counterexample_interval_is_floor_not_ceil :
    tuneInterval (1 / 10) 25 = 2
  ∧ claimedTuneInterval (1 / 10) 25 = 3
  ∧ (samplerWarmup countSampler (1 / 10) 25 0).2.2.2.length = 12
  ∧ (samplerWarmup countSampler (1 / 10) 25 0).2.2.2.length ≠
      25 / claimedTuneInterval (1 / 10) 25 := by
  have hfloor : ((1 : ℚ) / 10 * (25 : ℕ)) = 5 / 2 := by norm_num
  have h1 : tuneInterval (1 / 10) 25 = 2 := by
    rw [tuneInterval, hfloor]
    norm_num
    rfl
  have h2 : claimedTuneInterval (1 / 10) 25 = 3 := by
    rw [claimedTuneInterval, hfloor]
    have hc : (⌈(5 : ℚ) / 2⌉ : ℤ) = 3 := by
      rw [Int.ceil_eq_iff]
      norm_num
    rw [hc]
    rfl
  have h3 : (samplerWarmup countSampler (1 / 10) 25 0).2.2.2.length = 12 := by
    rw [samplerWarmup, h1]
    rfl
  refine ⟨h1, h2, h3, ?_⟩
  rw [h2, h3]
  decide

/-- C7 (code evaluation at the failing input): sampling N = 3 points with
batch_size = 2 stores all three points in the in-memory history but dumps
only floor(3/2) = 1 batch file, not ceil(3/2) = 2, because sample() never
invokes the handler's finalize; the flushed files concatenate to [1, 2],
not to the full history, while the uninvoked finalize would have produced
the claimed two files. -/
theorem C7_final_partial_batch_never_flushed :
    (samplerSample countSampler 3 2 0).2.2.1 = [1, 2, 3]
  ∧ (samplerSample countSampler 3 2 0).2.2.2.1.files.length = 1
  ∧ (samplerSample countSampler 3 2 0).2.2.2.1.files.length ≠ (3 + 2 - 1) / 2
  ∧ (samplerSample countSampler 3 2 0).2.2.2.1.files.flatten ≠
      (samplerSample countSampler 3 2 0).2.2.1
  ∧ (bhFinalize (samplerSample countSampler 3 2 0).2.2.2.1).files = [[1, 2], [3]] := by
  refine ⟨rfl, rfl, by decide, by decide, rfl⟩

/-- C9 (counterexample): LinearRTONew.set_state overrides the base method
with a bare pass, so restoring a checkpoint tagged with a different
sampler type succeeds without restoring anything, where the base method
fails with the type-mismatch error. -/
theorem C9_counterexample_rto_set_state_is_noop :
    rtoSetState (V := ℕ) [("current_point", 0)] ⟨"MH", [("current_point", 5)]⟩ =
      .ok [("current_point", 0)]
  ∧ baseSetState (V := ℕ) "LinearRTONew" baseStateKeys [("current_point", 0)]
      ⟨"MH", [("current_point", 5)]⟩ = .error .checkpointTypeMismatch := by
  constructor
  · rfl
  · rw [baseSetState, if_neg]
    decide

/-- C9 (amended): samplers using the inherited SamplerNew.set_state fail
with the type-mismatch error on a mismatched sampler-type tag, restore
exactly the declared state keys from a matching checkpoint produced by
get_state, and fail on unknown state keys; LinearRTONew overrides
set_state with a no-op that neither checks the tag nor restores any
field. -/
theorem C9_set_state_behavior {V : Type} [DecidableEq V] :
    (∀ (clsName : String) (keys : List String) (cur : List (String × V))
      (ck : Checkpoint V), ck.samplerType ≠ clsName →
        baseSetState clsName keys cur ck = .error .checkpointTypeMismatch)
  ∧ (∀ (clsName : String) (cur : List (String × V)) (read : String → V),
      baseSetState clsName baseStateKeys cur (baseGetState clsName baseStateKeys read) =
        .ok (updateAssoc cur "current_point" (read "current_point")))
  ∧ (∀ (clsName : String) (cur : List (String × V)) (k : String) (v : V),
      baseStateKeys.contains k = false →
        baseSetState clsName baseStateKeys cur ⟨clsName, [(k, v)]⟩ =
          .error .unknownStateKey)
  ∧ (∀ (cur : List (String × V)) (ck : Checkpoint V), rtoSetState cur ck = .ok cur) := by
  refine ⟨?_, ?_, ?_, fun cur ck => rfl⟩
  · intro clsName keys cur ck h
    rw [baseSetState, if_neg h]
  · intro clsName cur read
    simp [baseSetState, baseGetState, baseStateKeys, setAttrs, updateAssoc]
  · intro clsName cur k v h
    simp [baseSetState, setAttrs, h]
    simpa using h

/-- C9 (witness): the type-mismatch branch and the unknown-key branch of
the base set_state, instantiated at concrete checkpoints. -/
theorem C9_set_state_behavior_witness :
    ((Checkpoint.mk "MH" ([] : List (String × ℕ))).samplerType ≠ "CWMH"
      ∧ baseSetState "CWMH" [] ([] : List (String × ℕ)) ⟨"MH", []⟩ =
          .error .checkpointTypeMismatch)
  ∧ (baseStateKeys.contains "scale" = false
      ∧ baseSetState "MH" baseStateKeys ([] : List (String × ℕ)) ⟨"MH", [("scale", 1)]⟩ =
          .error .unknownStateKey) :=
  ⟨⟨by decide, C9_set_state_behavior.1 "CWMH" [] [] ⟨"MH", []⟩ (by decide)⟩,
    ⟨by decide, C9_set_state_behavior.2.2.1 "MH" [] "scale" 1 (by decide)⟩⟩

/-- C10: at construction, supplying two or more covariance-like arguments
fails; supplying exactly one makes it the designated mutable
representation; each representation setter fails with the
invalid-parameterization error exactly when its field is not the
designated one; and on the designated field the setter never raises that
error and succeeds whenever the factorization succeeds. -/
theorem C10_mutable_representation {n : ℕ} {α : Type} [LinearOrderedField α]
    [DecidableEq α] :
    (∀ (O : NumLib n α) (chols sf : Bool) (mean : Fin n → α)
      (c p sc sp : Option (GIn n α)),
      2 ≤ (if c.isSome then 1 else 0) + (if p.isSome then 1 else 0) +
          (if sp.isSome then 1 else 0) + (if sc.isSome then 1 else 0) →
      gaussInit O chols sf mean c p sc sp = .error .tooManyParams)
  ∧ (∀ (O : NumLib n α) (chols sf : Bool) (mean : Fin n → α) (v : GIn n α) g,
      gaussInit O chols sf mean (some v) none none none = .ok g → g.tag = .cov)
  ∧ (∀ (O : NumLib n α) (chols sf : Bool) (mean : Fin n → α) (v : GIn n α) g,
      gaussInit O chols sf mean none (some v) none none = .ok g → g.tag = .prec)
  ∧ (∀ (O : NumLib n α) (chols sf : Bool) (mean : Fin n → α) (v : GIn n α) g,
      gaussInit O chols sf mean none none (some v) none = .ok g → g.tag = .sqrtcov)
  ∧ (∀ (O : NumLib n α) (chols sf : Bool) (mean : Fin n → α) (v : GIn n α) g,
      gaussInit O chols sf mean none none none (some v) = .ok g → g.tag = .sqrtprec)
  ∧ (∀ (O : NumLib n α) (chols sf : Bool) (g : GaussianModel n α) (v : GIn n α),
      gaussSetCov O chols sf g v = .error .invalidParameterization ↔ g.tag ≠ .cov)
  ∧ (∀ (O : NumLib n α) (chols sf : Bool) (g : GaussianModel n α) (v : GIn n α),
      gaussSetPrec O chols sf g v = .error .invalidParameterization ↔ g.tag ≠ .prec)
  ∧ (∀ (O : NumLib n α) (chols sf : Bool) (g : GaussianModel n α) (v : GIn n α),
      gaussSetSqrtcov O chols sf g v = .error .invalidParameterization ↔ g.tag ≠ .sqrtcov)
  ∧ (∀ (O : NumLib n α) (chols sf : Bool) (g : GaussianModel n α) (v : GIn n α),
      gaussSetSqrtprec O chols sf g v = .error .invalidParameterization ↔
        g.tag ≠ .sqrtprec)
  ∧ (∀ (O : NumLib n α) (chols sf : Bool) (g : GaussianModel n α) (v : GIn n α) r,
      g.tag = .cov → get_sqrtprec_from_cov O chols v sf = .ok r →
      gaussSetCov O chols sf g v =
        .ok { g with fields := some ⟨some r.prec, r.sqrtprec, r.logdet, r.rank⟩ })
  ∧ (∀ (O : NumLib n α) (chols sf : Bool) (g : GaussianModel n α) (v : GIn n α) r,
      g.tag = .prec → get_sqrtprec_from_prec O chols v sf = .ok r →
      gaussSetPrec O chols sf g v =
        .ok { g with fields := some ⟨some v.matrixify, r.sqrtprec, r.logdet, r.rank⟩ })
  ∧ (∀ (O : NumLib n α) (chols sf : Bool) (g : GaussianModel n α) (v : GIn n α) r,
      g.tag = .sqrtcov → get_sqrtprec_from_sqrtcov O chols v sf = .ok r →
      gaussSetSqrtcov O chols sf g v =
        .ok { g with fields := some ⟨some r.prec, r.sqrtprec, r.logdet, r.rank⟩ })
  ∧ (∀ (O : NumLib n α) (chols sf : Bool) (g : GaussianModel n α) (v : GIn n α) r,
      g.tag = .sqrtprec → get_sqrtprec_from_sqrtprec O chols v sf = .ok r →
      gaussSetSqrtprec O chols sf g v =
        .ok { g with fields := some ⟨none, r.sqrtprec, r.logdet, r.rank⟩ }) := by
  refine ⟨?_, ?_, ?_, ?_, ?_, ?_, ?_, ?_, ?_, ?_, ?_, ?_, ?_⟩
  · intro O chols sf mean c p sc sp h
    unfold gaussInit
    have h0 : ¬ ((if c.isSome then 1 else 0) + (if p.isSome then 1 else 0) +
        (if sp.isSome then 1 else 0) + (if sc.isSome then 1 else 0) = 0) := by omega
    have h1 : ((if c.isSome then 1 else 0) + (if p.isSome then 1 else 0) +
        (if sp.isSome then 1 else 0) + (if sc.isSome then 1 else 0) ≠ 1) := by omega
    rw [if_neg h0, if_pos h1]
  · intro O chols sf mean v g h
    unfold gaussInit at h
    norm_num at h
    rw [gaussSetCov, if_pos rfl] at h
    cases hE : get_sqrtprec_from_cov O chols v sf <;> rw [hE] at h
    · exact absurd h (by simp)
    · cases h
      rfl
  · intro O chols sf mean v g h
    unfold gaussInit at h
    norm_num at h
    rw [gaussSetPrec, if_pos rfl] at h
    cases hE : get_sqrtprec_from_prec O chols v sf <;> rw [hE] at h
    · exact absurd h (by simp)
    · cases h
      rfl
  · intro O chols sf mean v g h
    unfold gaussInit at h
    norm_num at h
    rw [gaussSetSqrtcov, if_pos rfl] at h
    cases hE : get_sqrtprec_from_sqrtcov O chols v sf <;> rw [hE] at h
    · exact absurd h (by simp)
    · cases h
      rfl
  · intro O chols sf mean v g h
    unfold gaussInit at h
    norm_num at h
    rw [gaussSetSqrtprec, if_pos rfl] at h
    cases hE : get_sqrtprec_from_sqrtprec O chols v sf <;> rw [hE] at h
    · exact absurd h (by simp)
    · cases h
      rfl
  · intro O chols sf g v
    by_cases h : g.tag = ParamTag.cov
    · rw [gaussSetCov, if_pos h]
      cases hE : get_sqrtprec_from_cov O chols v sf <;> simp [h]
    · rw [gaussSetCov, if_neg h]
      simp [h]
  · intro O chols sf g v
    by_cases h : g.tag = ParamTag.prec
    · rw [gaussSetPrec, if_pos h]
      cases hE : get_sqrtprec_from_prec O chols v sf <;> simp [h]
    · rw [gaussSetPrec, if_neg h]
      simp [h]
  · intro O chols sf g v
    by_cases h : g.tag = ParamTag.sqrtcov
    · rw [gaussSetSqrtcov, if_pos h]
      cases hE : get_sqrtprec_from_sqrtcov O chols v sf <;> simp [h]
    · rw [gaussSetSqrtcov, if_neg h]
      simp [h]
  · intro O chols sf g v
    by_cases h : g.tag = ParamTag.sqrtprec
    · rw [gaussSetSqrtprec, if_pos h]
      cases hE : get_sqrtprec_from_sqrtprec O chols v sf <;> simp [h]
    · rw [gaussSetSqrtprec, if_neg h]
      simp [h]
  · intro O chols sf g v r htag hE
    rw [gaussSetCov, if_pos htag, hE]
  · intro O chols sf g v r htag hE
    rw [gaussSetPrec, if_pos htag, hE]
  · intro O chols sf g v r htag hE
    rw [gaussSetSqrtcov, if_pos htag, hE]
  · intro O chols sf g v r htag hE
    rw [gaussSetSqrtprec, if_pos htag, hE]

/-- C10 (witness): constructing with both cov and prec fails, and setting
cov on a prec-designated Gaussian fails with the invalid-parameterization
error. -/
theorem C10_mutable_representation_witness :
    (2 ≤ (if (some (GIn.scalar (n := 2) (1 : ℚ))).isSome then 1 else 0) +
        (if (some (GIn.scalar (n := 2) (1 : ℚ))).isSome then 1 else 0) +
        (if (none : Option (GIn 2 ℚ)).isSome then 1 else 0) +
        (if (none : Option (GIn 2 ℚ)).isSome then 1 else 0)
      ∧ gaussInit QOBase true false (fun _ => (0 : ℚ)) (some (.scalar 1))
          (some (.scalar 1)) none none = .error .tooManyParams)
  ∧ ((GaussianModel.mk (n := 2) (α := ℚ) .prec (fun _ => 0) none).tag ≠ ParamTag.cov
      ∧ gaussSetCov QOBase true false ⟨.prec, fun _ => 0, none⟩ (.scalar 1) =
          .error .invalidParameterization) :=
  ⟨⟨by decide,
    C10_mutable_representation.1 QOBase true false (fun _ => 0) (some (.scalar 1))
      (some (.scalar 1)) none none (by decide)⟩,
   ⟨by decide,
    (C10_mutable_representation.2.2.2.2.2.1 QOBase true false
      ⟨.prec, fun _ => 0, none⟩ (.scalar 1)).mpr (by decide)⟩⟩

/-- C6 (amended): setting the target validates it; if the sampler's
initialized flag exists and is False (and the _acc history attribute
exists), initialization then succeeds — default ones initial point,
emptied samples history, precomputed operator stack — and the flag
becomes True; but replacing the target on an already-initialized sampler
raises the already-initialized error after validation, so the stack is
never rebuilt by target assignment. -/
theorem C6_set_target_lifecycle {α : Type} [LinearOrderedField α] [DecidableEq α] :
    (∀ (s : PySamplerSt α) (t : TargetRec α) (a : List ℕ) (M : StackOp α),
      s.isInit = some false → s.accH = some a → rtoValidateTarget t = .ok () →
      rtoPrecomputeM t = .ok M →
      rtoSetTarget s t =
        .ok { s with
              target := some t,
              initialPoint := some (onesL t.dim),
              currentPoint := some (onesL t.dim),
              samplesH := some [], isInit := some true,
              btild := some (rtoBtild t), stackM := some M })
  ∧ (∀ (s : PySamplerSt α) (t : TargetRec α), s.isInit = some true →
      rtoValidateTarget t = .ok () → rtoSetTarget s t = .error .alreadyInitialized) := by
  constructor
  · intro s t a M hinit hacc hval hpre
    obtain ⟨tg, ip, cp, sh, ah, ii, bt, sm⟩ := s
    cases hinit
    cases hacc
    rw [rtoSetTarget, hval, samplerInitRTO]
    rw [hpre]
    simp
  · intro s t hinit hval
    obtain ⟨tg, ip, cp, sh, ah, ii, bt, sm⟩ := s
    cases hinit
    rw [rtoSetTarget, hval, samplerInitRTO]

/-- C6 (counterexample): replacing the target of an already-initialized
sampler raises instead of re-initializing and rebuilding the stack, and
constructing a sampler with a target fails outright because __init__
assigns the target (which triggers initialize) before _is_initialized
exists. -/
theorem C6_counterexample_replacement_fails :
    rtoSetTarget initializedRTO tinyTarget = .error .alreadyInitialized
  ∧ mkLinearRTO (some tinyTarget) = .error .attributeMissing := ⟨rfl, rfl⟩

/-- C6 (witness): the successful first-assignment path instantiated on a
concrete fresh sampler and tiny target. -/
theorem C6_set_target_lifecycle_witness :
    freshRTO.isInit = some false ∧ freshRTO.accH = some [1]
  ∧ rtoValidateTarget tinyTarget = .ok ()
  ∧ rtoPrecomputeM tinyTarget =
      .ok (.virtualOp (rtoVirtFwd tinyTarget) (rtoVirtAdj tinyTarget))
  ∧ rtoSetTarget freshRTO tinyTarget =
      .ok { freshRTO with
            target := some tinyTarget,
            initialPoint := some (onesL tinyTarget.dim),
            currentPoint := some (onesL tinyTarget.dim),
            samplesH := some [], isInit := some true,
            btild := some (rtoBtild tinyTarget),
            stackM := some (.virtualOp (rtoVirtFwd tinyTarget) (rtoVirtAdj tinyTarget)) } :=
  ⟨rfl, rfl, rfl, rfl,
    C6_set_target_lifecycle.1 freshRTO tinyTarget [1] _ rfl rfl rfl rfl⟩

/-- C3: logpdf fails (None) exactly when logdet is undefined; when
defined it returns -1/2 (rank log(2 pi) + logdet) - 1/2 the squared norm
of sqrtprec applied to the deviation; and the 2-dimensional standard
Gaussian constructed from the identity covariance evaluates to
-log(2 pi) at its mean. -/
theorem C3_logpdf_normalization {n : ℕ} {α : Type} [LinearOrderedField α]
    [DecidableEq α] :
    (∀ (mean : Fin n → α) (f : GaussFields n α) (log2pi : α) (x : Fin n → α),
      gaussLogpdf mean f log2pi x = none ↔ f.logdet = none)
  ∧ (∀ (mean : Fin n → α) (f : GaussFields n α) (log2pi : α) (x : Fin n → α)
      (ld : α), f.logdet = some ld →
      gaussLogpdf mean f log2pi x =
        some (-(1 / 2) * ((f.rank : α) * log2pi + ld) +
          -(1 / 2) * ∑ i, (f.sqrtprec.mulVec (x - mean) i) ^ 2))
  ∧ (∀ (O : NumLib 2 α) (chols sf : Bool) (log2pi : α),
      O.log 1 = 0 → O.sqrt 1 = 1 →
      ∀ g, gaussInit O chols sf (fun _ => 0)
          (some (.full (1 : Matrix (Fin 2) (Fin 2) α) false)) none none none = .ok g →
        ∃ f, g.fields = some f ∧
          gaussLogpdf g.mean f log2pi (fun _ => 0) = some (-log2pi)) := by
  refine ⟨?_, ?_, ?_⟩
  · intro mean f log2pi x
    unfold gaussLogpdf
    cases f.logdet <;> simp
  · intro mean f log2pi x ld h
    unfold gaussLogpdf
    rw [h]
    rfl
  · intro O chols sf log2pi hlog1 hsqrt1 g hg
    have hdiag : ∀ i j : Fin 2, i ≠ j → (1 : Matrix (Fin 2) (Fin 2) α) i j = 0 :=
      fun i j hij => Matrix.one_apply_ne hij
    have hInit : gaussInit O chols sf (fun _ => (0 : α))
        (some (.full (1 : Matrix (Fin 2) (Fin 2) α) false)) none none none =
        gaussSetCov O chols sf ⟨.cov, fun _ => 0, none⟩ (.full 1 false) := rfl
    have hE : get_sqrtprec_from_cov O chols
        (.full (1 : Matrix (Fin 2) (Fin 2) α) false) sf =
        .ok ⟨Matrix.diagonal (fun i => 1 / (1 : Matrix (Fin 2) (Fin 2) α) i i),
             Matrix.diagonal (fun i => O.sqrt (1 / (1 : Matrix (Fin 2) (Fin 2) α) i i)),
             some (∑ i, O.log ((1 : Matrix (Fin 2) (Fin 2) α) i i)), 2⟩ := by
      simp only [get_sqrtprec_from_cov]
      rw [if_pos hdiag]
    rw [hInit, gaussSetCov, if_pos rfl, hE] at hg
    cases hg
    refine ⟨_, rfl, ?_⟩
    unfold gaussLogpdf
    simp only [Matrix.one_apply_eq, hlog1, gaussLogupdf]
    have hzero : ((fun _ => (0 : α)) - (fun _ => (0 : α)) : Fin 2 → α) = 0 := by
      funext i
      simp
    rw [hzero, Matrix.mulVec_zero]
    push_cast
    simp

/-- C3 (witness): the rational oracle satisfies the log and sqrt
contracts at 1, and the standard 2-dimensional Gaussian evaluates its
log density at the mean to minus the log-2-pi constant. -/
theorem C3_logpdf_normalization_witness :
    QOBase.log 1 = 0 ∧ QOBase.sqrt 1 = 1
  ∧ gaussInit QOBase true false (fun _ => (0 : ℚ))
      (some (.full 1 false)) none none none = .ok stdGauss2
  ∧ gaussLogpdf stdGauss2.mean stdFields (5 / 2) (fun _ => 0) = some (-(5 / 2)) := by
  have hInit : gaussInit QOBase true false (fun _ => (0 : ℚ))
      (some (.full 1 false)) none none none = .ok stdGauss2 := rfl
  refine ⟨rfl, rfl, hInit, ?_⟩
  obtain ⟨f, hf, hv⟩ :=
    (C3_logpdf_normalization (n := 2) (α := ℚ)).2.2 QOBase true false (5 / 2) rfl rfl stdGauss2 hInit
  have hfe : f = stdFields := by
    injection hf with h
    exact h.symm
  exact hfe ▸ hv

/-- C1 (code evaluation at the failing input): on a sparse non-diagonal
precision input with cholmod available, the engine returns the cholmod
factor L itself (lower triangular, with L Lᵀ equal to the input
precision) as sqrtprec, and for that factor sqrtprecᵀ sqrtprec differs
from the implied precision matrix — in contradiction with the class
docstring sqrtprec.T @ sqrtprec == prec, which every other branch of the
file satisfies. -/
theorem C1_invariant_fails_on_sparse_prec_cholmod :
    QOC1.cholmodL qPrecIn * (QOC1.cholmodL qPrecIn)ᵀ = qPrecIn
  ∧ QOC1.cholmodL qPrecIn 0 1 = 0
  ∧ (GIn.full qPrecIn true).matrixify = qPrecIn
  ∧ isOkPrec (get_sqrtprec_from_prec QOC1 true (.full qPrecIn true) false) = true
  ∧ precSqrtprecOf (get_sqrtprec_from_prec QOC1 true (.full qPrecIn true) false) = qLow
  ∧ ¬ ((precSqrtprecOf (get_sqrtprec_from_prec QOC1 true (.full qPrecIn true) false))ᵀ *
        precSqrtprecOf (get_sqrtprec_from_prec QOC1 true (.full qPrecIn true) false) =
        qPrecIn) := by
  have hcl : QOC1.cholmodL qPrecIn = qLow := rfl
  have hndiag : ¬ (∀ i j : Fin 2, i ≠ j → qPrecIn i j = 0) := by
    intro h
    have h01 := h 0 1 (by decide)
    rw [show qPrecIn 0 1 = 1 from rfl] at h01
    exact one_ne_zero h01
  have hE : get_sqrtprec_from_prec QOC1 true (.full qPrecIn true) false =
      .ok ⟨QOC1.cholmodL qPrecIn, some (-(QOC1.cholmodLogdet qPrecIn)),
           QOC1.structuralRank qPrecIn⟩ := by
    simp only [get_sqrtprec_from_prec]
    rw [if_neg hndiag]
    rfl
  refine ⟨?_, rfl, rfl, ?_, ?_, ?_⟩
  · rw [hcl]
    ext i j
    fin_cases i <;> fin_cases j <;>
      simp [qLow, qPrecIn, Matrix.mul_apply, Fin.sum_univ_two, Matrix.transpose_apply,
        Matrix.vecHead, Matrix.vecTail]
    norm_num
  · rw [hE]
    rfl
  · rw [hE, hcl]
    rfl
  · rw [hE, hcl]
    intro h
    rw [← Matrix.ext_iff] at h
    have h00 := h 0 0
    simp [qLow, qPrecIn, Matrix.mul_apply, Fin.sum_univ_two, Matrix.transpose_apply,
      Matrix.vecHead, Matrix.vecTail, precSqrtprecOf] at h00

/-- Helper: on a dense non-diagonal symmetric input processed with
sparse_flag, the covariance entry point succeeds (when no eigenvalue is
below -eps) and returns as sqrtprec the transpose of the eigenvector
matrix with columns scaled by sqrt of the pseudo-inverted spectrum —
with no sign normalization applied. -/
theorem covC4_eigh_path (O : NumLib 2 ℚ)
    (hnd : ¬ ∀ i j : Fin 2, i ≠ j → covC4 i j = 0)
    (hsym : covC4 = covC4ᵀ)
    (hpsd : ∀ i, -(eigvalshToEps O.cond (O.eigh covC4).1) ≤ (O.eigh covC4).1 i) :
    isOkCov (get_sqrtprec_from_cov O false (.full covC4 false) true) = true
  ∧ covSqrtprecOf (get_sqrtprec_from_cov O false (.full covC4 false) true) =
      ((O.eigh covC4).2 * Matrix.diagonal (fun j => O.sqrt
        (if |(O.eigh covC4).1 j| ≤ eigvalshToEps O.cond (O.eigh covC4).1 then 0
         else 1 / (O.eigh covC4).1 j)))ᵀ := by
  have hstep : get_sqrtprec_from_cov O false (.full covC4 false) true =
      (eighBranch O covC4 true 1).map fun r =>
        { prec := r.1ᵀ * r.1, sqrtprec := r.1, logdet := r.2.1, rank := r.2.2 } := by
    simp only [get_sqrtprec_from_cov]
    rw [if_neg hnd, if_neg Bool.false_ne_true, if_pos hsym, if_pos trivial]
  have hbr : eighBranch O covC4 true 1 =
      .ok (((O.eigh covC4).2 * Matrix.diagonal (fun j => O.sqrt
          (if |(O.eigh covC4).1 j| ≤ eigvalshToEps O.cond (O.eigh covC4).1 then 0
           else 1 / (O.eigh covC4).1 j)))ᵀ,
        some (1 * ∑ i ∈ Finset.univ.filter
          (fun i => eigvalshToEps O.cond (O.eigh covC4).1 < (O.eigh covC4).1 i),
          O.log ((O.eigh covC4).1 i)),
        (Finset.univ.filter
          (fun i => eigvalshToEps O.cond (O.eigh covC4).1 < (O.eigh covC4).1 i)).card) := by
    simp only [eighBranch]
    rw [if_pos hpsd]
    rfl
  rw [hstep, hbr]
  exact ⟨rfl, rfl⟩

/-- C4 (code evaluation at the failing input): two equally valid
eigendecompositions of the same dense symmetric covariance (differing
only in the sign of one eigenvector) make the engine return different
sqrtprec factors, because the sign-fixed factor computed in the source is
immediately overwritten by the unnormalized U.T; applying the discarded
sign fix to both returned factors yields identical matrices, which is
what reproducibility required. -/
theorem C4_sign_fix_is_dead_code :
    eigU1 * Matrix.diagonal eigS * eigU1ᵀ = covC4 ∧ eigU1ᵀ * eigU1 = 1
  ∧ eigU2 * Matrix.diagonal eigS * eigU2ᵀ = covC4 ∧ eigU2ᵀ * eigU2 = 1
  ∧ isOkCov (get_sqrtprec_from_cov QOE1 false (.full covC4 false) true) = true
  ∧ isOkCov (get_sqrtprec_from_cov QOE2 false (.full covC4 false) true) = true
  ∧ covSqrtprecOf (get_sqrtprec_from_cov QOE1 false (.full covC4 false) true) ≠
      covSqrtprecOf (get_sqrtprec_from_cov QOE2 false (.full covC4 false) true)
  ∧ signFixCols (covSqrtprecOf
        (get_sqrtprec_from_cov QOE1 false (.full covC4 false) true))ᵀ =
      signFixCols (covSqrtprecOf
        (get_sqrtprec_from_cov QOE2 false (.full covC4 false) true))ᵀ := by
  have hmax : npMaxAbs eigS = 4 := by
    simp [npMaxAbs, eigS, List.ofFn_succ]
  have hnd : ¬ ∀ i j : Fin 2, i ≠ j → covC4 i j = 0 := by
    intro h
    have h01 := h 0 1 (by decide)
    rw [show covC4 0 1 = -36 / 25 from rfl] at h01
    norm_num at h01
  have hsym : covC4 = covC4ᵀ := by
    ext i j
    fin_cases i <;> fin_cases j <;>
      simp [covC4, Matrix.transpose_apply, Matrix.vecHead, Matrix.vecTail]
  have hpsd1 : ∀ i, -(eigvalshToEps QOE1.cond (QOE1.eigh covC4).1) ≤
      (QOE1.eigh covC4).1 i := by
    show ∀ i, -(eigvalshToEps QOBase.cond eigS) ≤ eigS i
    intro i
    rw [eigvalshToEps, hmax]
    fin_cases i <;> norm_num [QOBase, eigS]
  have hpsd2 : ∀ i, -(eigvalshToEps QOE2.cond (QOE2.eigh covC4).1) ≤
      (QOE2.eigh covC4).1 i := by
    show ∀ i, -(eigvalshToEps QOBase.cond eigS) ≤ eigS i
    intro i
    rw [eigvalshToEps, hmax]
    fin_cases i <;> norm_num [QOBase, eigS]
  obtain ⟨hok1, hsp1⟩ := covC4_eigh_path QOE1 hnd hsym hpsd1
  obtain ⟨hok2, hsp2⟩ := covC4_eigh_path QOE2 hnd hsym hpsd2
  have he1 : eigvalshToEps QOE1.cond (QOE1.eigh covC4).1 = 1 / 250000 := by
    show eigvalshToEps QOBase.cond eigS = 1 / 250000
    rw [eigvalshToEps, hmax]
    norm_num [QOBase]
  have he2 : eigvalshToEps QOE2.cond (QOE2.eigh covC4).1 = 1 / 250000 := by
    show eigvalshToEps QOBase.cond eigS = 1 / 250000
    rw [eigvalshToEps, hmax]
    norm_num [QOBase]
  rw [he1] at hsp1
  rw [he2] at hsp2
  have hU1 : covSqrtprecOf (get_sqrtprec_from_cov QOE1 false (.full covC4 false) true) =
      Matrix.of ![![3 / 5, 4 / 5], ![-2 / 5, 3 / 10]] := by
    rw [hsp1]
    ext i j
    fin_cases i <;> fin_cases j <;>
      · simp [QOE1, QOBase, eigS, eigU1, qSqrt, Matrix.mul_diagonal,
          Matrix.vecMul_diagonal, Matrix.transpose_apply, Matrix.vecHead, Matrix.vecTail]
        norm_num
  have hU2 : covSqrtprecOf (get_sqrtprec_from_cov QOE2 false (.full covC4 false) true) =
      Matrix.of ![![3 / 5, 4 / 5], ![2 / 5, -3 / 10]] := by
    rw [hsp2]
    ext i j
    fin_cases i <;> fin_cases j <;>
      · simp [QOE2, QOBase, eigS, eigU2, qSqrt, Matrix.mul_diagonal,
          Matrix.vecMul_diagonal, Matrix.transpose_apply, Matrix.vecHead, Matrix.vecTail]
        norm_num
  refine ⟨?_, ?_, ?_, ?_, hok1, hok2, ?_, ?_⟩
  · ext i j
    fin_cases i <;> fin_cases j <;>
      · simp [covC4, eigS, eigU1, Matrix.mul_apply, Matrix.mul_diagonal,
          Matrix.vecMul_diagonal, Fin.sum_univ_two, Matrix.transpose_apply,
          Matrix.vecHead, Matrix.vecTail]
        norm_num
  · ext i j
    fin_cases i <;> fin_cases j <;>
      · simp [eigU1, Matrix.mul_apply, Fin.sum_univ_two, Matrix.transpose_apply,
          Matrix.one_apply, Matrix.vecHead, Matrix.vecTail]
        norm_num
  · ext i j
    fin_cases i <;> fin_cases j <;>
      · simp [covC4, eigS, eigU2, Matrix.mul_apply, Matrix.mul_diagonal,
          Matrix.vecMul_diagonal, Fin.sum_univ_two, Matrix.transpose_apply,
          Matrix.vecHead, Matrix.vecTail]
        norm_num
  · ext i j
    fin_cases i <;> fin_cases j <;>
      · simp [eigU2, Matrix.mul_apply, Fin.sum_univ_two, Matrix.transpose_apply,
          Matrix.one_apply, Matrix.vecHead, Matrix.vecTail]
        norm_num
  · rw [hU1, hU2]
    intro h
    rw [← Matrix.ext_iff] at h
    have h10 := h 1 0
    simp [Matrix.vecHead, Matrix.vecTail] at h10
    norm_num at h10
  · rw [hU1, hU2]
    ext i j
    fin_cases i <;> fin_cases j <;>
      simp [signFixCols, npSign, Matrix.mul_diagonal, Matrix.transpose_apply,
        Matrix.vecHead, Matrix.vecTail]
    all_goals norm_num

/-- Helper: a matrix-vector product has one entry per matrix row. -/
theorem matVecL_length {α : Type} [LinearOrderedField α] (M : List (List α))
    (v : List α) : (matVecL M v).length = M.length := List.length_map M _

/-- Helper: the transpose with q columns has q rows. -/
theorem transposeLc_length {α : Type} [LinearOrderedField α] (q : ℕ)
    (M : List (List α)) : (transposeLc q M).length = q := by
  simp [transposeLc]

/-- Helper: elementwise sum truncates to the shorter operand. -/
theorem vAddL_length {α : Type} [LinearOrderedField α] (u v : List α) :
    (vAddL u v).length = min u.length v.length := List.length_zipWith _ u v

/-- Helper: elementwise difference truncates to the shorter operand. -/
theorem vSubL_length {α : Type} [LinearOrderedField α] (u v : List α) :
    (vSubL u v).length = min u.length v.length := List.length_zipWith _ u v

/-- Helper: scalar multiplication preserves length. -/
theorem sMulL_length {α : Type} [LinearOrderedField α] (c : α) (v : List α) :
    (sMulL c v).length = v.length := List.length_map v _

/-- Helper: each CGLS iterate stays in the solver's domain dimension,
because every update is an elementwise combination of the previous
iterate, the search direction, and an adjoint application of fixed
length. -/
theorem cglsLoop_length {α : Type} [LinearOrderedField α] [DecidableEq α]
    (A : CglsOp α) (d : ℕ) (hT : ∀ y, (A.applyT y).length = d)
    (shift tolsq norms0sq : α) :
    ∀ (fuel : ℕ) (x r p : List α) (gamma : α), x.length = d → p.length = d →
      (cglsLoop A shift tolsq norms0sq fuel x r p gamma).length = d := by
  intro fuel
  induction fuel with
  | zero => intro x r p gamma hx hp; exact hx
  | succ m ih =>
      intro x r p gamma hx hp
      rw [cglsLoop]
      by_cases hdelta : dotL (A.apply p) (A.apply p) + shift * dotL p p = 0
      · rw [if_pos hdelta]; exact hx
      · rw [if_neg hdelta]
        have hx1 : (vAddL x (sMulL ((gamma / (dotL (A.apply p) (A.apply p) +
            shift * dotL p p))) p)).length = d := by
          rw [vAddL_length, sMulL_length, hx, hp, min_self]
        by_cases hg : dotL (vSubL (A.applyT (vSubL r (sMulL (gamma /
            (dotL (A.apply p) (A.apply p) + shift * dotL p p)) (A.apply p))))
            (sMulL shift (vAddL x (sMulL (gamma / (dotL (A.apply p) (A.apply p) +
            shift * dotL p p)) p))))
            (vSubL (A.applyT (vSubL r (sMulL (gamma /
            (dotL (A.apply p) (A.apply p) + shift * dotL p p)) (A.apply p))))
            (sMulL shift (vAddL x (sMulL (gamma / (dotL (A.apply p) (A.apply p) +
            shift * dotL p p)) p)))) ≤ tolsq * norms0sq
        · rw [if_pos hg]; exact hx1
        · rw [if_neg hg]
          apply ih
          · exact hx1
          · simp [vAddL_length, vSubL_length, sMulL_length, hT, hx1, hp]

/-- Helper: the CGLS result has the dimension of the starting point (the
sampler's current point), given that the adjoint always lands in that
dimension. -/
theorem cgls_length {α : Type} [LinearOrderedField α] [DecidableEq α]
    (A : CglsOp α) (d : ℕ) (hT : ∀ y, (A.applyT y).length = d)
    (b x0 : List α) (maxit : ℕ) (tol shift : α) (hx0 : x0.length = d) :
    (cgls A b x0 maxit tol shift).length = d := by
  rw [cgls]
  apply cglsLoop_length A d hT
  · exact hx0
  · rw [vSubL_length, sMulL_length, hT, hx0, min_self]

/-- Helper: the adjoint accumulation loop of the virtual operator keeps
the accumulator length when every (callable) likelihood adjoint returns
the prior dimension. -/
theorem rtoAdjLoop_length {α : Type} [LinearOrderedField α] [DecidableEq α]
    (d : ℕ) (y : List α) :
    ∀ (ls : List (LikRec α)) (i : ℕ) (acc : List α), acc.length = d →
      (∀ l ∈ ls, ∀ z, (l.model.adj z).length = d) →
      ((rtoAdjLoop y ls i acc).1).length = d := by
  intro ls
  induction ls with
  | nil => intro i acc hacc _; exact hacc
  | cons l rest ih =>
      intro i acc hacc hadj
      rw [rtoAdjLoop]
      apply ih
      · rw [vAddL_length, hacc, hadj l (List.mem_cons_self l rest), min_self]
      · intro l2 hl2 z
        exact hadj l2 (List.mem_cons_of_mem l hl2) z

/-- C5: for a well-formed RTO target, the stacked right-hand side b has
length equal to the sum of the likelihood data lengths plus the prior
dimension, and whatever operator stack _precompute builds, every step
returns a new current point of the prior dimension together with the
acceptance indicator 1. -/
theorem C5_rto_step_dimensions {α : Type} [LinearOrderedField α] [DecidableEq α]
    (t : TargetRec α) (hwf : TargetWF t) (hadj : AdjLenContract t) :
    (rtoBtild t).length = (t.likelihoods.map (fun l => l.data.length)).sum + t.dim
  ∧ ∀ op, rtoPrecomputeM t = .ok op →
      ∀ (current noise : List α) (maxit : ℕ) (tol shift : α),
        current.length = t.dim →
        (rtoStep (op.toOp t.dim) (rtoBtild t) current noise maxit tol shift).1.length =
          t.dim
        ∧ (rtoStep (op.toOp t.dim) (rtoBtild t) current noise maxit tol shift).2 = 1 := by
  constructor
  · rw [rtoBtild, List.length_append, List.length_flatten, List.map_map, matVecL_length]
    have hmaps : (t.likelihoods.map (List.length ∘ fun l => matVecL l.sqrtprec l.data)) =
        t.likelihoods.map (fun l => l.data.length) := by
      apply List.map_eq_map_iff.mpr
      intro l hl
      simp only [Function.comp_apply, matVecL_length]
      exact hwf.1 l hl
    rw [hmaps, hwf.2]
    rfl
  · intro op hop current noise maxit tol shift hcur
    have hT : ∀ y, (((op.toOp t.dim).applyT) y).length = t.dim := by
      rw [rtoPrecomputeM] at hop
      by_cases h1 : t.likelihoods.all (fun l => !l.model.isCallable)
      · rw [if_pos h1] at hop
        cases hop
        intro y
        rw [StackOp.toOp, matVecL_length, transposeLc_length]
      · rw [if_neg h1] at hop
        by_cases h2 : t.likelihoods.all (fun l => l.model.isCallable)
        · rw [if_pos h2] at hop
          cases hop
          intro y
          rw [StackOp.toOp]
          unfold rtoVirtAdj
          simp only []
          rw [vAddL_length, matVecL_length, transposeLc_length]
          have hloop : ((rtoAdjLoop y t.likelihoods 0
              (zerosL t.prior.mean.length)).1).length = t.prior.mean.length := by
            apply rtoAdjLoop_length
            · rw [zerosL, List.length_replicate]
            · intro l hl z
              have hcall : l.model.isCallable = true := by
                have := List.all_eq_true.mp h2 l hl
                simpa using this
              exact hadj l hl hcall z
          rw [hloop, min_self]
          rfl
        · rw [if_neg h2] at hop
          cases hop
    refine ⟨?_, rfl⟩
    rw [rtoStep]
    exact cgls_length _ t.dim hT _ current maxit tol shift hcur

/-- C5 (witness): the tiny concrete target is well formed, satisfies the
adjoint length contract, and its precompute result is accepted by the
theorem. -/
theorem C5_rto_step_dimensions_witness :
    TargetWF tinyTarget ∧ AdjLenContract tinyTarget
  ∧ ∀ op, rtoPrecomputeM tinyTarget = .ok op →
      ∀ (current noise : List ℚ) (maxit : ℕ) (tol shift : ℚ),
        current.length = tinyTarget.dim →
        (rtoStep (op.toOp tinyTarget.dim) (rtoBtild tinyTarget) current noise maxit
          tol shift).1.length = tinyTarget.dim
        ∧ (rtoStep (op.toOp tinyTarget.dim) (rtoBtild tinyTarget) current noise maxit
          tol shift).2 = 1 := by
  have hwf : TargetWF tinyTarget := by
    constructor
    · intro l hl
      simp [tinyTarget] at hl
      rw [hl]
      rfl
    · rfl
  have hadj : AdjLenContract tinyTarget := by
    intro l hl _ z
    simp [tinyTarget] at hl
    rw [hl]
    rfl
  exact ⟨hwf, hadj, (C5_rto_step_dimensions tinyTarget hwf hadj).2⟩

/-- C2 (counterexample): on the same underlying covariance — the
2-dimensional identity, whose precision is also the identity — the
covariance entry point returns the identity as sqrtprec, while the
sqrtprec entry point fed the quarter-turn rotation (a perfectly valid
factor, qRotᵀ qRot = 1) returns that rotation unchanged; the two
sqrtprec factors differ, so the four entry points do not agree on
sqrtprec itself. -/
theorem C2_counterexample_sqrtprec_not_unique :
    qRotᵀ * qRot = 1
  ∧ isOkCov (get_sqrtprec_from_cov QOBase false (.full 1 false) false) = true
  ∧ covSqrtprecOf (get_sqrtprec_from_cov QOBase false (.full 1 false) false) = 1
  ∧ isOkPrec (get_sqrtprec_from_sqrtprec QOBase false (.full qRot false) false) = true
  ∧ precSqrtprecOf (get_sqrtprec_from_sqrtprec QOBase false (.full qRot false) false) =
      qRot
  ∧ covSqrtprecOf (get_sqrtprec_from_cov QOBase false (.full 1 false) false) ≠
      precSqrtprecOf (get_sqrtprec_from_sqrtprec QOBase false (.full qRot false) false) := by
  have hdiag1 : ∀ i j : Fin 2, i ≠ j → (1 : Matrix (Fin 2) (Fin 2) ℚ) i j = 0 :=
    fun i j h => Matrix.one_apply_ne h
  have hA : get_sqrtprec_from_cov QOBase false
      (.full (1 : Matrix (Fin 2) (Fin 2) ℚ) false) false =
      .ok ⟨Matrix.diagonal (fun i => 1 / (1 : Matrix (Fin 2) (Fin 2) ℚ) i i),
           Matrix.diagonal (fun i => QOBase.sqrt (1 / (1 : Matrix (Fin 2) (Fin 2) ℚ) i i)),
           some (∑ i, QOBase.log ((1 : Matrix (Fin 2) (Fin 2) ℚ) i i)), 2⟩ := by
    simp only [get_sqrtprec_from_cov]
    rw [if_pos hdiag1]
  have hndR : ¬ ∀ i j : Fin 2, i ≠ j → qRot i j = 0 := by
    intro h
    have h01 := h 0 1 (by decide)
    rw [show qRot 0 1 = -1 from rfl] at h01
    norm_num at h01
  have hB : get_sqrtprec_from_sqrtprec QOBase false (.full qRot false) false =
      .ok ⟨qRot, some (-QOBase.log (qRot * qRotᵀ).det),
           QOBase.matrixRank (qRot * qRotᵀ)⟩ := by
    simp only [get_sqrtprec_from_sqrtprec]
    rw [if_neg hndR, if_neg Bool.false_ne_true, if_neg Bool.false_ne_true]
  have hsp : covSqrtprecOf (get_sqrtprec_from_cov QOBase false
      (.full (1 : Matrix (Fin 2) (Fin 2) ℚ) false) false) = 1 := by
    rw [hA]
    show Matrix.diagonal (fun i => QOBase.sqrt (1 / (1 : Matrix (Fin 2) (Fin 2) ℚ) i i)) = 1
    ext i j
    by_cases hij : i = j
    · subst hij
      simp [Matrix.one_apply_eq, QOBase, qSqrt]
    · simp [Matrix.diagonal_apply_ne _ hij, Matrix.one_apply_ne hij]
  refine ⟨?_, ?_, hsp, ?_, ?_, ?_⟩
  · ext i j
    fin_cases i <;> fin_cases j <;>
      simp [qRot, Matrix.mul_apply, Fin.sum_univ_two, Matrix.transpose_apply,
        Matrix.one_apply, Matrix.vecHead, Matrix.vecTail]
  · rw [hA]
    rfl
  · rw [hB]
    rfl
  · rw [hB]
    rfl
  · rw [hsp, hB]
    intro h
    rw [← Matrix.ext_iff] at h
    have h00 := h 0 0
    rw [show precSqrtprecOf (Except.ok ⟨qRot, some (-QOBase.log (qRot * qRotᵀ).det),
      QOBase.matrixRank (qRot * qRotᵀ)⟩) = qRot from rfl] at h00
    rw [Matrix.one_apply_eq, show qRot 0 0 = 0 from rfl] at h00
    norm_num at h00

/-- C2 (amended): on the same underlying dense covariance, the four entry
points agree on logdet and rank, the cov, prec and sqrtcov entry points
return the same sqrtprec factor, and all four returned factors
reconstruct the same precision (sqrtprecᵀ sqrtprec = P); moreover,
feeding any input to the precision entry point yields exactly the
negation of the logdet the covariance entry point computes for that same
input.  The library contracts (inverse, cholesky, logarithm
multiplicativity, full rank of invertible matrices) are assumed only at
the arguments the code feeds them. -/
theorem C2_roundtrip_consistency {n : ℕ} {α : Type} [LinearOrderedField α]
    [DecidableEq α] (O : NumLib n α) (chols : Bool)
    (cov P S R : Matrix (Fin n) (Fin n) α)
    (hcovsym : cov = covᵀ) (hPsym : P = Pᵀ)
    (hinv : O.inv cov = P) (hPinv : P * cov = 1)
    (hS : S * Sᵀ = cov) (hR : Rᵀ * R = P)
    (hcovnd : ¬ ∀ i j, i ≠ j → cov i j = 0)
    (hPnd : ¬ ∀ i j, i ≠ j → P i j = 0)
    (hSnd : ¬ ∀ i j, i ≠ j → S i j = 0)
    (hRnd : ¬ ∀ i j, i ≠ j → R i j = 0)
    (hdet : 0 < cov.det)
    (hlogmul : ∀ a b : α, 0 < a → 0 < b → O.log (a * b) = O.log a + O.log b)
    (hchol : O.cholesky P * (O.cholesky P)ᵀ = P)
    (hrank : ∀ M : Matrix (Fin n) (Fin n) α, IsUnit M.det → O.matrixRank M = n) :
    (∃ r1 r3 : CovResult n α, ∃ r2 r4 : PrecResult n α,
      get_sqrtprec_from_cov O chols (.full cov false) false = .ok r1
      ∧ get_sqrtprec_from_prec O chols (.full P false) false = .ok r2
      ∧ get_sqrtprec_from_sqrtcov O chols (.full S false) false = .ok r3
      ∧ get_sqrtprec_from_sqrtprec O chols (.full R false) false = .ok r4
      ∧ r1.logdet = r2.logdet ∧ r1.logdet = r3.logdet ∧ r1.logdet = r4.logdet
      ∧ r1.rank = n ∧ r2.rank = n ∧ r3.rank = n ∧ r4.rank = n
      ∧ r1.sqrtprec = r2.sqrtprec ∧ r1.sqrtprec = r3.sqrtprec
      ∧ r1.sqrtprecᵀ * r1.sqrtprec = P ∧ r2.sqrtprecᵀ * r2.sqrtprec = P
      ∧ r3.sqrtprecᵀ * r3.sqrtprec = P ∧ r4.sqrtprecᵀ * r4.sqrtprec = P)
  ∧ (∀ (inp : GIn n α) (sf chols2 : Bool) (r1 : CovResult n α),
      get_sqrtprec_from_cov O chols2 inp sf = .ok r1 →
      ∃ r2 : PrecResult n α, get_sqrtprec_from_prec O chols2 inp sf = .ok r2
        ∧ r2.logdet = r1.logdet.map (fun x => -x)) := by
  have hlog1 : O.log 1 = 0 := by
    have h := hlogmul 1 1 one_pos one_pos
    rw [one_mul] at h
    linarith
  have hdetP : P.det * cov.det = 1 := by
    have h := congrArg Matrix.det hPinv
    rwa [Matrix.det_mul, Matrix.det_one] at h
  have hPdetpos : 0 < P.det := by
    rcases lt_trichotomy P.det 0 with h | h | h
    · nlinarith
    · rw [h, zero_mul] at hdetP
      exact absurd hdetP zero_ne_one
    · exact h
  have hlogP : O.log P.det = -O.log cov.det := by
    have h := hlogmul P.det cov.det hPdetpos hdet
    rw [hdetP, hlog1] at h
    linarith
  have hdetRR : (R * Rᵀ).det = P.det := by
    rw [Matrix.det_mul, Matrix.det_transpose, ← hR, Matrix.det_mul,
      Matrix.det_transpose]
  have hcovunit : IsUnit cov.det := isUnit_iff_ne_zero.mpr (ne_of_gt hdet)
  have hPunit : IsUnit P.det := isUnit_iff_ne_zero.mpr (ne_of_gt hPdetpos)
  have hRRunit : IsUnit (R * Rᵀ).det := by
    rw [hdetRR]
    exact hPunit
  constructor
  · have E1 : get_sqrtprec_from_cov O chols (.full cov false) false =
        .ok ⟨O.inv cov, (O.cholesky (O.inv cov))ᵀ, some (O.log cov.det),
             O.matrixRank cov⟩ := by
      simp only [get_sqrtprec_from_cov]
      rw [if_neg hcovnd, if_neg Bool.false_ne_true, if_pos hcovsym,
        if_neg Bool.false_ne_true]
    have E2 : get_sqrtprec_from_prec O chols (.full P false) false =
        .ok ⟨(O.cholesky P)ᵀ, some (-O.log P.det), O.matrixRank P⟩ := by
      simp only [get_sqrtprec_from_prec]
      rw [if_neg hPnd, if_neg Bool.false_ne_true, if_pos hPsym,
        if_neg Bool.false_ne_true]
    have E3 : get_sqrtprec_from_sqrtcov O chols (.full S false) false =
        .ok ⟨O.inv (S * Sᵀ), (O.cholesky (O.inv (S * Sᵀ)))ᵀ,
             some (O.log (S * Sᵀ).det), O.matrixRank (S * Sᵀ)⟩ := by
      simp only [get_sqrtprec_from_sqrtcov]
      rw [if_neg hSnd, if_neg Bool.false_ne_true, if_neg Bool.false_ne_true]
    have E4 : get_sqrtprec_from_sqrtprec O chols (.full R false) false =
        .ok ⟨R, some (-O.log (R * Rᵀ).det), O.matrixRank (R * Rᵀ)⟩ := by
      simp only [get_sqrtprec_from_sqrtprec]
      rw [if_neg hRnd, if_neg Bool.false_ne_true, if_neg Bool.false_ne_true]
    refine ⟨_, _, _, _, E1, E2, E3, E4, ?_, ?_, ?_, ?_, ?_, ?_, ?_, ?_, ?_, ?_,
      ?_, ?_, ?_⟩
    · show some (O.log cov.det) = some (-O.log P.det)
      rw [hlogP, neg_neg]
    · show some (O.log cov.det) = some (O.log (S * Sᵀ).det)
      rw [hS]
    · show some (O.log cov.det) = some (-O.log (R * Rᵀ).det)
      rw [hdetRR, hlogP, neg_neg]
    · exact hrank cov hcovunit
    · exact hrank P hPunit
    · show O.matrixRank (S * Sᵀ) = n
      rw [hS]
      exact hrank cov hcovunit
    · exact hrank _ hRRunit
    · show (O.cholesky (O.inv cov))ᵀ = (O.cholesky P)ᵀ
      rw [hinv]
    · show (O.cholesky (O.inv cov))ᵀ = (O.cholesky (O.inv (S * Sᵀ)))ᵀ
      rw [hS]
    · show ((O.cholesky (O.inv cov))ᵀ)ᵀ * (O.cholesky (O.inv cov))ᵀ = P
      rw [hinv, Matrix.transpose_transpose]
      exact hchol
    · show ((O.cholesky P)ᵀ)ᵀ * (O.cholesky P)ᵀ = P
      rw [Matrix.transpose_transpose]
      exact hchol
    · show ((O.cholesky (O.inv (S * Sᵀ)))ᵀ)ᵀ * (O.cholesky (O.inv (S * Sᵀ)))ᵀ = P
      rw [hS, hinv, Matrix.transpose_transpose]
      exact hchol
    · exact hR
  · intro inp sf chols2 r1 h
    cases inp with
    | scalar v =>
        simp only [get_sqrtprec_from_cov] at h
        cases h
        exact ⟨_, rfl, by simp⟩
    | vector v =>
        simp only [get_sqrtprec_from_cov] at h
        cases h
        refine ⟨_, rfl, ?_⟩
        simp [Finset.sum_neg_distrib]
    | full M sparse =>
        by_cases hd : ∀ i j, i ≠ j → M i j = 0
        · simp only [get_sqrtprec_from_cov] at h
          rw [if_pos hd] at h
          cases h
          have h2 : get_sqrtprec_from_prec O chols2 (.full M sparse) sf =
              .ok ⟨Matrix.diagonal (fun i => O.sqrt (M i i)),
                   some (∑ i, -O.log (M i i)), n⟩ := by
            simp only [get_sqrtprec_from_prec]
            rw [if_pos hd]
          refine ⟨_, h2, ?_⟩
          simp [Finset.sum_neg_distrib]
        · cases sparse with
          | true =>
              cases chols2 with
              | true =>
                  simp only [get_sqrtprec_from_cov] at h
                  rw [if_neg hd, if_pos trivial, if_pos trivial] at h
                  cases h
                  have h2 : get_sqrtprec_from_prec O true (.full M true) sf =
                      .ok ⟨O.cholmodL M, some (-O.cholmodLogdet M),
                           O.structuralRank M⟩ := by
                    simp only [get_sqrtprec_from_prec]
                    rw [if_neg hd, if_pos trivial, if_pos trivial]
                  refine ⟨_, h2, ?_⟩
                  simp
              | false =>
                  simp only [get_sqrtprec_from_cov] at h
                  rw [if_neg hd, if_pos trivial, if_neg Bool.false_ne_true] at h
                  cases h
                  have h2 : get_sqrtprec_from_prec O false (.full M true) sf =
                      .ok ⟨O.spChol M, none, O.structuralRank M⟩ := by
                    simp only [get_sqrtprec_from_prec]
                    rw [if_neg hd, if_pos trivial, if_neg Bool.false_ne_true]
                  refine ⟨_, h2, ?_⟩
                  simp
          | false =>
              by_cases hsym2 : M = Mᵀ
              · cases sf with
                | false =>
                    simp only [get_sqrtprec_from_cov] at h
                    rw [if_neg hd, if_neg Bool.false_ne_true, if_pos hsym2,
                      if_neg Bool.false_ne_true] at h
                    cases h
                    have h2 : get_sqrtprec_from_prec O chols2 (.full M false) false =
                        .ok ⟨(O.cholesky M)ᵀ, some (-O.log M.det),
                             O.matrixRank M⟩ := by
                      simp only [get_sqrtprec_from_prec]
                      rw [if_neg hd, if_neg Bool.false_ne_true, if_pos hsym2,
                        if_neg Bool.false_ne_true]
                    refine ⟨_, h2, ?_⟩
                    simp
                | true =>
                    simp only [get_sqrtprec_from_cov, eighBranch] at h
                    rw [if_neg hd, if_neg Bool.false_ne_true, if_pos hsym2,
                      if_pos trivial] at h
                    by_cases hpsd : ∀ i, -(eigvalshToEps O.cond (O.eigh M).1) ≤
                        (O.eigh M).1 i
                    · rw [if_pos hpsd] at h
                      simp only [Except.map] at h
                      cases h
                      have h2 : get_sqrtprec_from_prec O chols2 (.full M false) true =
                          .ok ⟨((O.eigh M).2 * Matrix.diagonal
                                (fun j => O.sqrt ((O.eigh M).1 j)))ᵀ,
                               some (-1 * ∑ i ∈ Finset.univ.filter
                                 (fun i => eigvalshToEps O.cond (O.eigh M).1 <
                                   (O.eigh M).1 i), O.log ((O.eigh M).1 i)),
                               (Finset.univ.filter
                                 (fun i => eigvalshToEps O.cond (O.eigh M).1 <
                                   (O.eigh M).1 i)).card⟩ := by
                        simp only [get_sqrtprec_from_prec, eighBranch]
                        rw [if_neg hd, if_neg Bool.false_ne_true, if_pos hsym2,
                          if_pos trivial, if_pos hpsd]
                        rfl
                      refine ⟨_, h2, ?_⟩
                      simp
                    · rw [if_neg hpsd] at h
                      exact absurd h (by simp [Except.map])
              · simp only [get_sqrtprec_from_cov] at h
                rw [if_neg hd, if_neg Bool.false_ne_true, if_neg hsym2] at h
                exact absurd h (by simp)

/-- C2 (witness): a concrete rational instance of the round-trip
consistency — covariance [[1,1],[1,2]], its inverse precision
[[2,-1],[-1,1]], a covariance square root and a precision square root,
with the oracle contracts discharged at those matrices. -/
theorem C2_roundtrip_consistency_witness :
    qPrecIn = qPrecInᵀ ∧ qInvP = qInvPᵀ
  ∧ QC2.inv qPrecIn = qInvP ∧ qInvP * qPrecIn = 1
  ∧ qLow * qLowᵀ = qPrecIn ∧ qR2ᵀ * qR2 = qInvP
  ∧ (¬ ∀ i j : Fin 2, i ≠ j → qPrecIn i j = 0)
  ∧ (¬ ∀ i j : Fin 2, i ≠ j → qInvP i j = 0)
  ∧ (¬ ∀ i j : Fin 2, i ≠ j → qLow i j = 0)
  ∧ (¬ ∀ i j : Fin 2, i ≠ j → qR2 i j = 0)
  ∧ (0 : ℚ) < qPrecIn.det
  ∧ QC2.cholesky qInvP * (QC2.cholesky qInvP)ᵀ = qInvP
  ∧ (∃ r1 r3 : CovResult 2 ℚ, ∃ r2 r4 : PrecResult 2 ℚ,
      get_sqrtprec_from_cov QC2 false (.full qPrecIn false) false = .ok r1
      ∧ get_sqrtprec_from_prec QC2 false (.full qInvP false) false = .ok r2
      ∧ get_sqrtprec_from_sqrtcov QC2 false (.full qLow false) false = .ok r3
      ∧ get_sqrtprec_from_sqrtprec QC2 false (.full qR2 false) false = .ok r4
      ∧ r1.logdet = r2.logdet ∧ r1.logdet = r3.logdet ∧ r1.logdet = r4.logdet
      ∧ r1.rank = 2 ∧ r2.rank = 2 ∧ r3.rank = 2 ∧ r4.rank = 2
      ∧ r1.sqrtprec = r2.sqrtprec ∧ r1.sqrtprec = r3.sqrtprec
      ∧ r1.sqrtprecᵀ * r1.sqrtprec = qInvP ∧ r2.sqrtprecᵀ * r2.sqrtprec = qInvP
      ∧ r3.sqrtprecᵀ * r3.sqrtprec = qInvP ∧ r4.sqrtprecᵀ * r4.sqrtprec = qInvP) := by
  have hcovsym : qPrecIn = qPrecInᵀ := by
    ext i j
    fin_cases i <;> fin_cases j <;>
      simp [qPrecIn, Matrix.transpose_apply, Matrix.vecHead, Matrix.vecTail]
  have hPsym : qInvP = qInvPᵀ := by
    ext i j
    fin_cases i <;> fin_cases j <;>
      simp [qInvP, Matrix.transpose_apply, Matrix.vecHead, Matrix.vecTail]
  have hPinv : qInvP * qPrecIn = 1 := by
    ext i j
    fin_cases i <;> fin_cases j <;>
      simp [qInvP, qPrecIn, Matrix.mul_apply, Fin.sum_univ_two, Matrix.one_apply,
        Matrix.vecHead, Matrix.vecTail]
    all_goals norm_num
  have hS : qLow * qLowᵀ = qPrecIn := by
    ext i j
    fin_cases i <;> fin_cases j <;>
      simp [qLow, qPrecIn, Matrix.mul_apply, Fin.sum_univ_two, Matrix.transpose_apply,
        Matrix.vecHead, Matrix.vecTail]
    norm_num
  have hR : qR2ᵀ * qR2 = qInvP := by
    ext i j
    fin_cases i <;> fin_cases j <;>
      simp [qR2, qInvP, Matrix.mul_apply, Fin.sum_univ_two, Matrix.transpose_apply,
        Matrix.vecHead, Matrix.vecTail]
    all_goals norm_num
  have hcovnd : ¬ ∀ i j : Fin 2, i ≠ j → qPrecIn i j = 0 := by
    intro h
    have h01 := h 0 1 (by decide)
    rw [show qPrecIn 0 1 = 1 from rfl] at h01
    exact one_ne_zero h01
  have hPnd : ¬ ∀ i j : Fin 2, i ≠ j → qInvP i j = 0 := by
    intro h
    have h01 := h 0 1 (by decide)
    rw [show qInvP 0 1 = -1 from rfl] at h01
    norm_num at h01
  have hSnd : ¬ ∀ i j : Fin 2, i ≠ j → qLow i j = 0 := by
    intro h
    have h10 := h 1 0 (by decide)
    rw [show qLow 1 0 = 1 from rfl] at h10
    exact one_ne_zero h10
  have hRnd : ¬ ∀ i j : Fin 2, i ≠ j → qR2 i j = 0 := by
    intro h
    have h01 := h 0 1 (by decide)
    rw [show qR2 0 1 = -1 from rfl] at h01
    norm_num at h01
  have hdet : (0 : ℚ) < qPrecIn.det := by
    rw [show qPrecIn.det = (1 * 2 - 1 * 1 : ℚ) from by
      rw [qPrecIn, Matrix.det_fin_two]
      simp [Matrix.vecHead, Matrix.vecTail]]
    norm_num
  have hlogmul : ∀ a b : ℚ, 0 < a → 0 < b →
      QC2.log (a * b) = QC2.log a + QC2.log b := by
    intro a b _ _
    show (0 : ℚ) = 0 + 0
    norm_num
  have hchol : QC2.cholesky qInvP * (QC2.cholesky qInvP)ᵀ = qInvP := by
    show cholP * cholPᵀ = qInvP
    ext i j
    fin_cases i <;> fin_cases j <;>
      simp [cholP, qInvP, Matrix.mul_apply, Fin.sum_univ_two, Matrix.transpose_apply,
        Matrix.vecHead, Matrix.vecTail]
    all_goals norm_num
  have hrank : ∀ M : Matrix (Fin 2) (Fin 2) ℚ, IsUnit M.det → QC2.matrixRank M = 2 :=
    fun M _ => rfl
  refine ⟨hcovsym, hPsym, rfl, hPinv, hS, hR, hcovnd, hPnd, hSnd, hRnd, hdet, hchol, ?_⟩
  exact (C2_roundtrip_consistency QC2 false qPrecIn qInvP qLow qR2 hcovsym hPsym rfl
    hPinv hS hR hcovnd hPnd hSnd hRnd hdet hlogmul hchol hrank).1

end Theorems
